import Mathlib

/-! BC759x seven-segment LED display driver (bc_led_disp.cpp)

A shallow embedding of the driver class `BcLedDisp` and a verification of its
command encoding.

* The serial port `Uart` is modelled as the list of bytes written to it so far.
* `uint8_t`, `uint16_t` and `uint32_t` variables are natural numbers; every place
  where the C++ code can wrap (`++Pos`, `Pos--`, `--Width`, `i++`, the implicit
  conversion of an `int` expression to the `uint8_t` parameters of `sendCmd`)
  carries an explicit `% 256`.
* The opcode macros (`DECODE_WT`, `WRITE_ALL`, ...) are defined in the header
  `bc_led_disp.h`; their numeric values are parameters of the embedding.
* Loops are recursive functions with a fuel argument.  Running out of fuel
  yields `none`; every theorem about a result shows that the result is `some`.
-/

namespace BcLedDisp

/-! ## Data model -/

/-- The opcode macros of `bc_led_disp.h` that the driver uses. -/
structure Opcodes where
  WRITE_ALL : Nat
  DECODE_WT : Nat
  BLINK_WT_SET : Nat
  BLINK_WT_CLR : Nat
  BLINK_DIG_CTL : Nat
  deriving Repr, DecidableEq

/-- The state of a `BcLedDisp` object together with the bytes written to its
serial port. -/
structure Driver where
  Uart : List Nat
  LowDigOnRight : Bool
  BlinkCtlH : Nat
  BlinkCtlL : Nat
  deriving Repr, DecidableEq

/-- The lookup table `BlinkBit[]`. -/
def BlinkBit : List Nat := [0x01, 0x02, 0x04, 0x08, 0x10, 0x20, 0x40, 0x80]

/-! ## Operations -/

/-- `BcLedDisp::setDispLowDigOnRight`. -/
def setDispLowDigOnRight (s : Driver) : Driver :=
  { s with LowDigOnRight := true }

/-- `BcLedDisp::setDispLowDigOnLeft`. -/
def setDispLowDigOnLeft (s : Driver) : Driver :=
  { s with LowDigOnRight := false }

/-- `BcLedDisp::sendCmd`: `Uart.write(Cmd); Uart.write(Data);`.  Both parameters
are `uint8_t`, so the arguments are reduced modulo 256. -/
def sendCmd (s : Driver) (Cmd Data : Nat) : Driver :=
  { s with Uart := s.Uart ++ [Cmd % 256, Data % 256] }

/-- The `for (uint8_t i = 0; i < 0x10; i++)` loop of `clear`. -/
def clearLoop (oc : Opcodes) : Nat → Driver → Nat → Option Driver
  | 0, _, _ => none
  | fuel + 1, s, i =>
    if i < 0x10 then
      clearLoop oc fuel (sendCmd s (oc.BLINK_WT_CLR ||| i) 0xff) ((i + 1) % 256)
    else
      some s

/-- `BcLedDisp::clear`. -/
def clear (oc : Opcodes) (s : Driver) : Option Driver :=
  let s := sendCmd s oc.WRITE_ALL 0x00
  match clearLoop oc 256 s 0 with
  | none => none
  | some s =>
    let s := sendCmd s oc.BLINK_DIG_CTL 0x00
    let s := sendCmd s (oc.BLINK_DIG_CTL + 1) 0x00
    let s := { s with BlinkCtlH := 0 }
    some { s with BlinkCtlL := 0 }

/-- The `while ((--Width & 0x7f) > 0)` loop of `displayDec` in the
`LowDigOnRight` branch. -/
def decLoopRight (oc : Opcodes) : Nat → Driver → Nat → Nat → Nat → Option Driver
  | 0, _, _, _, _ => none
  | fuel + 1, s, Val, Pos, Width =>
    let Width := (Width + 255) % 256
    if (Width &&& 0x7f) > 0 then
      let s :=
        if Val ≥ 10 ∨ (Width &&& 0x80) ≠ 0 then
          sendCmd s (oc.DECODE_WT ||| Pos) (Val % 10)
        else
          sendCmd s (oc.DECODE_WT ||| Pos) ((Val % 10) ||| 0x80)
      let Val := Val / 10
      let Pos := (Pos + 1) % 256
      if Pos > 31 then some s
      else decLoopRight oc fuel s Val Pos Width
    else
      some s

/-- The `while ((--Width & 0x7f) > 0)` loop of `displayDec` in the
`LowDigOnLeft` branch.  `Pos--` is a post-decrement of a `uint8_t`: the command
uses the old value and the new value wraps from 0 to 255. -/
def decLoopLeft (oc : Opcodes) : Nat → Driver → Nat → Nat → Nat → Option Driver
  | 0, _, _, _, _ => none
  | fuel + 1, s, Val, Pos, Width =>
    let Width := (Width + 255) % 256
    if (Width &&& 0x7f) > 0 then
      let s :=
        if Val ≥ 10 ∨ (Width &&& 0x80) ≠ 0 then
          sendCmd s (oc.DECODE_WT ||| Pos) (Val % 10)
        else
          sendCmd s (oc.DECODE_WT ||| Pos) ((Val % 10) ||| 0x80)
      let Pos := (Pos + 255) % 256
      let Val := Val / 10
      if Pos = 0 then some s
      else decLoopLeft oc fuel s Val Pos Width
    else
      some s

/-- `BcLedDisp::displayDec`. -/
def displayDec (oc : Opcodes) (s : Driver) (Val Pos Width : Nat) : Option Driver :=
  if Pos > 31 ∨ (Width &&& 0x7f) = 0 then some s
  else
    let lowDigOnRight := s.LowDigOnRight
    let s := sendCmd s (oc.DECODE_WT ||| Pos) (Val % 10)
    let Val := Val / 10
    if lowDigOnRight then
      let Pos := (Pos + 1) % 256
      if Pos > 31 then some s
      else decLoopRight oc 256 s Val Pos Width
    else
      if Pos = 0 then some s
      else decLoopLeft oc 256 s Val ((Pos + 255) % 256) Width

/-- The `for (i = Pos; i < Width + Pos; i++)` loop of `displayHex`.  The
comparison is done on `int`, so `Width + Pos` does not wrap; `i` is a
`uint8_t`. -/
def hexLoopRight (oc : Opcodes) : Nat → Driver → Nat → Nat → Nat → Nat → Option Driver
  | 0, _, _, _, _, _ => none
  | fuel + 1, s, Val, Pos, Width, i =>
    if i < Width + Pos then
      hexLoopRight oc fuel (sendCmd s (oc.DECODE_WT ||| i) (Val &&& 0x0f)) (Val >>> 4)
        Pos Width ((i + 1) % 256)
    else
      some s

/-- The `for (i = 0; i < Width; i++)` loop of `displayHex`.  It is entered with
`Width ≤ Pos + 1`, so `Pos - i` is never negative. -/
def hexLoopLeft (oc : Opcodes) : Nat → Driver → Nat → Nat → Nat → Nat → Option Driver
  | 0, _, _, _, _, _ => none
  | fuel + 1, s, Val, Pos, Width, i =>
    if i < Width then
      hexLoopLeft oc fuel (sendCmd s (oc.DECODE_WT ||| (Pos - i)) (Val &&& 0x0f)) (Val >>> 4)
        Pos Width ((i + 1) % 256)
    else
      some s

/-- `BcLedDisp::displayHex`. -/
def displayHex (oc : Opcodes) (s : Driver) (Val Pos Width : Nat) : Option Driver :=
  if Pos > 31 then some s
  else if s.LowDigOnRight then
    let Width := if Width + Pos > 32 then (32 - Pos) % 256 else Width
    hexLoopRight oc 256 s Val Pos Width Pos
  else
    let Width := if Width > Pos + 1 then (Pos + 1) % 256 else Width
    hexLoopLeft oc 256 s Val Pos Width 0

/-- `BcLedDisp::digitBlink`.  `~BlinkBit[..]` is taken on `int`; after the
conversion of the result to `uint8_t` only its low eight bits matter, which are
those of `0xff ^ BlinkBit[..]`. -/
def digitBlink (oc : Opcodes) (s : Driver) (Digit : Nat) (OnOff : Bool) : Driver :=
  if Digit > 31 then s
  else if Digit < 16 then
    if OnOff then sendCmd s (oc.BLINK_WT_SET ||| Digit) 0xff
    else sendCmd s (oc.BLINK_WT_CLR ||| Digit) 0xff
  else
    let bit := BlinkBit.getD (Digit &&& 0x07) 0
    if Digit &&& 0x08 ≠ 0 then
      let s := { s with BlinkCtlH :=
        if OnOff then (s.BlinkCtlH ||| bit) % 256 else (s.BlinkCtlH &&& (0xff ^^^ bit)) % 256 }
      sendCmd s (oc.BLINK_DIG_CTL + 1) s.BlinkCtlH
    else
      let s := { s with BlinkCtlL :=
        if OnOff then (s.BlinkCtlL ||| bit) % 256 else (s.BlinkCtlL &&& (0xff ^^^ bit)) % 256 }
      sendCmd s oc.BLINK_DIG_CTL s.BlinkCtlL

/-! ## Vocabulary for stating properties -/

/-- The byte stream of a list of (command byte, data byte) frames. -/
def bytesOf : List (Nat × Nat) → List Nat
  | [] => []
  | c :: cs => c.1 :: c.2 :: bytesOf cs

/-- The driver after the frames `cs` have been written to the port: only the
byte stream grows. -/
def emit (s : Driver) (cs : List (Nat × Nat)) : Driver :=
  { s with Uart := s.Uart ++ bytesOf cs }

/-- Some byte values for the opcode macros, used to instantiate theorems at
concrete inputs.  The theorems themselves hold for every assignment. -/
def sampleOpcodes : Opcodes :=
  { WRITE_ALL := 0xf1, DECODE_WT := 0x80, BLINK_WT_SET := 0x30, BLINK_WT_CLR := 0x20,
    BLINK_DIG_CTL := 0xd0 }

/-- A freshly constructed driver: nothing written, default orientation. -/
def initial : Driver :=
  { Uart := [], LowDigOnRight := true, BlinkCtlH := 0, BlinkCtlL := 0 }

/-- The data byte written by one pass of the `displayDec` loops when the loop was
entered with value `Val`, after `k` earlier passes; `force` is bit 7 of the
width counter. -/
def loopData (force : Bool) (Val k : Nat) : Nat :=
  if Val / 10 ^ k ≥ 10 ∨ force = true then Val / 10 ^ k % 10 else (Val / 10 ^ k % 10) ||| 0x80

/-- The data byte of the `k`-th command of `displayDec`. -/
def decData (Val Width k : Nat) : Nat :=
  if k = 0 ∨ Width &&& 0x80 ≠ 0 ∨ Val / 10 ^ k ≥ 10 then Val / 10 ^ k % 10
  else (Val / 10 ^ k % 10) ||| 0x80

/-- The value of `Pos` at the `k`-th command of `displayDec`. -/
def decPos (lowDigOnRight : Bool) (Pos k : Nat) : Nat :=
  if lowDigOnRight then Pos + k else (Pos + 256 - k) % 256

/-- The number of commands `displayDec` sends for a position `Pos ≤ 31` and
`n = Width & 0x7f`. -/
def decCount (lowDigOnRight : Bool) (Pos n : Nat) : Nat :=
  if lowDigOnRight then min n (32 - Pos)
  else if Pos = 0 then min n 1
  else if Pos = 1 then n
  else min n Pos

/-- The digit addressed by the `k`-th command of `displayHex`. -/
def hexPos (lowDigOnRight : Bool) (Pos k : Nat) : Nat :=
  if lowDigOnRight then Pos + k else Pos - k

/-- The number of commands `displayHex` sends for a position `Pos ≤ 31`. -/
def hexCount (lowDigOnRight : Bool) (Pos Width : Nat) : Nat :=
  if lowDigOnRight then min Width (32 - Pos) else min Width (Pos + 1)

/-- The blink mask `digitBlink` computes from the old mask `old` for digit `d`:
`old | BlinkBit[d & 7]` or `old & ~BlinkBit[d & 7]`, as a byte. -/
def blinkMask (old d : Nat) (e : Bool) : Nat :=
  if e then (old ||| 2 ^ (d % 8)) % 256 else (old &&& (0xff ^^^ 2 ^ (d % 8))) % 256

/-- A sequence of `digitBlink` calls, made in order. -/
def digitBlinkSeq (oc : Opcodes) (s : Driver) : List (Nat × Bool) → Driver
  | [] => s
  | c :: cs => digitBlinkSeq oc (digitBlink oc s c.1 c.2) cs

/-- The flag of the most recent call on digit `d` in a sequence of `digitBlink`
calls; `init` when the sequence has no call on `d`. -/
def lastFlag (d : Nat) (init : Bool) : List (Nat × Bool) → Bool
  | [] => init
  | c :: cs => lastFlag d (if c.1 = d then c.2 else init) cs

/-- A call of one of the public operations of the driver. -/
inductive Op where
  | setDispLowDigOnRight
  | setDispLowDigOnLeft
  | clear
  | sendCmd (Cmd Data : Nat)
  | displayDec (Val Pos Width : Nat)
  | displayHex (Val Pos Width : Nat)
  | digitBlink (Digit : Nat) (OnOff : Bool)
  deriving Repr, DecidableEq

/-- The effect of one call on the driver. -/
def step (oc : Opcodes) (s : Driver) : Op → Option Driver
  | .setDispLowDigOnRight => some (setDispLowDigOnRight s)
  | .setDispLowDigOnLeft => some (setDispLowDigOnLeft s)
  | .clear => clear oc s
  | .sendCmd Cmd Data => some (sendCmd s Cmd Data)
  | .displayDec Val Pos Width => displayDec oc s Val Pos Width
  | .displayHex Val Pos Width => displayHex oc s Val Pos Width
  | .digitBlink Digit OnOff => some (digitBlink oc s Digit OnOff)

/-- A sequence of calls, made in order. -/
def runOps (oc : Opcodes) : Driver → List Op → Option Driver
  | s, [] => some s
  | s, op :: ops =>
    match step oc s op with
    | none => none
    | some s1 => runOps oc s1 ops

/-- The decimal number read back from the data bytes `ds` of consecutive digits,
least significant first: the sum of `(d_k & 0x0F) * 10^k`. -/
def readBack (ds : List Nat) : Nat :=
  ((List.range ds.length).map (fun k => (ds.getD k 0 &&& 0x0F) * 10 ^ k)).sum

/-! ## Bit arithmetic -/

theorem and_7f (x : Nat) : x &&& 0x7f = x % 128 :=
  Nat.and_pow_two_sub_one_eq_mod x 7

theorem and_0f (x : Nat) : x &&& 0x0f = x % 16 :=
  Nat.and_pow_two_sub_one_eq_mod x 4

set_option maxRecDepth 100000 in
theorem and_80_byte : ∀ y < 256, y &&& 0x80 = 128 * (y / 128 % 2) := by
  decide

theorem and_80 (x : Nat) : x &&& 0x80 = 128 * (x / 128 % 2) := by
  have h1 : x &&& 0x80 = (x % 256) &&& 0x80 := by
    have h := Nat.and_assoc x 255 128
    have e : x &&& 255 = x % 256 := Nat.and_pow_two_sub_one_eq_mod x 8
    rw [e] at h
    rw [h]
    rfl
  rw [h1, and_80_byte _ (Nat.mod_lt _ (by norm_num))]
  omega

theorem or_80_lt (d : Nat) (h : d < 256) : d ||| 0x80 < 256 :=
  @Nat.or_lt_two_pow d 0x80 8 h (by norm_num)

theorem or_lt_256 (a b : Nat) (ha : a < 256) (hb : b < 256) : a ||| b < 256 :=
  @Nat.or_lt_two_pow a b 8 ha hb

/-! ## Frames -/

theorem emit_nil (s : Driver) : emit s [] = s := by
  simp [emit, bytesOf]

theorem emit_sendCmd (s : Driver) (c d : Nat) (cs : List (Nat × Nat)) :
    emit (sendCmd s c d) cs = emit s ((c % 256, d % 256) :: cs) := by
  simp [emit, sendCmd, bytesOf]

theorem sendCmd_eq_emit (s : Driver) (c d : Nat) :
    sendCmd s c d = emit s [(c % 256, d % 256)] := by
  simp [emit, sendCmd, bytesOf]

theorem bytesOf_append (a b : List (Nat × Nat)) :
    bytesOf (a ++ b) = bytesOf a ++ bytesOf b := by
  induction a with
  | nil => rfl
  | cons c cs ih => simp [bytesOf, ih]

theorem emit_emit (s : Driver) (a b : List (Nat × Nat)) :
    emit (emit s a) b = emit s (a ++ b) := by
  simp [emit, bytesOf_append]

theorem range_map_succ {α : Type} (m : Nat) (f : Nat → α) :
    (List.range (m + 1)).map f = f 0 :: (List.range m).map (fun k => f (k + 1)) := by
  rw [List.range_succ_eq_map, List.map_cons, List.map_map]
  rfl

/-! ## The loops of `displayDec` -/

theorem loopData_succ (force : Bool) (Val k : Nat) :
    loopData force (Val / 10) k = loopData force Val (k + 1) := by
  have e : Val / 10 / 10 ^ k = Val / 10 ^ (k + 1) := by
    rw [Nat.div_div_eq_div_mul, pow_succ']
  simp only [loopData, e]

theorem loopData_zero (force : Bool) (Val : Nat) :
    loopData force Val 0 =
      if Val ≥ 10 ∨ force = true then Val % 10 else (Val % 10) ||| 0x80 := by
  simp [loopData]

theorem decLoopRight_eq (oc : Opcodes) :
    ∀ (fuel : Nat) (s : Driver) (Val Pos Width : Nat), Pos ≤ 31 →
      (Width + 255) % 256 % 128 < fuel →
      decLoopRight oc fuel s Val Pos Width =
        some (emit s ((List.range (min ((Width + 255) % 256 % 128) (32 - Pos))).map
          (fun k => ((oc.DECODE_WT ||| (Pos + k)) % 256,
            loopData (decide ((Width + 255) % 256 / 128 % 2 = 1)) Val k)))) := by
  intro fuel
  induction fuel with
  | zero => intro s Val Pos Width _ hf; omega
  | succ fuel ih =>
    intro s Val Pos Width hp hf
    rw [decLoopRight]
    simp only [and_7f, and_80]
    by_cases hr : (Width + 255) % 256 % 128 > 0
    · rw [if_pos hr]
      obtain ⟨r, hr1⟩ : ∃ r, (Width + 255) % 256 % 128 = r + 1 := ⟨_, (Nat.succ_pred_eq_of_pos hr).symm⟩
      have hdata : ∀ c, (if Val ≥ 10 ∨ 128 * ((Width + 255) % 256 / 128 % 2) ≠ 0 then
            sendCmd s c (Val % 10) else sendCmd s c ((Val % 10) ||| 0x80)) =
          emit s [(c % 256, loopData (decide ((Width + 255) % 256 / 128 % 2 = 1)) Val 0)] := by
        intro c
        have hiff : (128 * ((Width + 255) % 256 / 128 % 2) ≠ 0) ↔
            (decide ((Width + 255) % 256 / 128 % 2 = 1) = true) := by
          rw [decide_eq_true_iff]; omega
        rw [loopData_zero]
        simp only [hiff]
        split
        · rw [sendCmd_eq_emit]; congr 3; omega
        · rw [sendCmd_eq_emit]; congr 3
          exact Nat.mod_eq_of_lt (or_80_lt _ (by omega))
      rw [hdata]
      have hW1 : (Width + 255) % 256 < 256 := Nat.mod_lt _ (by norm_num)
      generalize (Width + 255) % 256 = W1 at *
      by_cases h31 : (Pos + 1) % 256 > 31
      · rw [if_pos h31]
        have hm : min (W1 % 128) (32 - Pos) = 0 + 1 := by omega
        rw [hm, range_map_succ]
        simp
      · rw [if_neg h31]
        have hP : (Pos + 1) % 256 = Pos + 1 := by omega
        have hr2 : (W1 + 255) % 256 % 128 = r := by omega
        have hF : decide ((W1 + 255) % 256 / 128 % 2 = 1) = decide (W1 / 128 % 2 = 1) := by
          congr 1
          apply propext
          omega
        have hm : min (W1 % 128) (32 - Pos) = min r (32 - (Pos + 1)) + 1 := by omega
        rw [ih _ _ _ _ (by omega) (by omega), emit_emit, hP, hr2, hF, hm, range_map_succ]
        simp only [List.singleton_append, Nat.add_zero, loopData_succ]
        congr 3
        apply List.map_congr_left
        intro k _
        congr 3
        omega
    · rw [if_neg hr]
      have h0 : (Width + 255) % 256 % 128 = 0 := by omega
      simp [h0, emit_nil]

theorem decLoopLeft_eq (oc : Opcodes) :
    ∀ (fuel : Nat) (s : Driver) (Val Pos Width : Nat), Pos < 256 →
      (Width + 255) % 256 % 128 < fuel →
      decLoopLeft oc fuel s Val Pos Width =
        some (emit s ((List.range
            (if Pos = 0 then (Width + 255) % 256 % 128
              else min ((Width + 255) % 256 % 128) Pos)).map
          (fun k => ((oc.DECODE_WT ||| ((Pos + 256 - k) % 256)) % 256,
            loopData (decide ((Width + 255) % 256 / 128 % 2 = 1)) Val k)))) := by
  intro fuel
  induction fuel with
  | zero => intro s Val Pos Width _ hf; omega
  | succ fuel ih =>
    intro s Val Pos Width hp hf
    rw [decLoopLeft]
    simp only [and_7f, and_80]
    by_cases hr : (Width + 255) % 256 % 128 > 0
    · rw [if_pos hr]
      obtain ⟨r, hr1⟩ : ∃ r, (Width + 255) % 256 % 128 = r + 1 :=
        ⟨_, (Nat.succ_pred_eq_of_pos hr).symm⟩
      have hdata : ∀ c, (if Val ≥ 10 ∨ 128 * ((Width + 255) % 256 / 128 % 2) ≠ 0 then
            sendCmd s c (Val % 10) else sendCmd s c ((Val % 10) ||| 0x80)) =
          emit s [(c % 256, loopData (decide ((Width + 255) % 256 / 128 % 2 = 1)) Val 0)] := by
        intro c
        have hiff : (128 * ((Width + 255) % 256 / 128 % 2) ≠ 0) ↔
            (decide ((Width + 255) % 256 / 128 % 2 = 1) = true) := by
          rw [decide_eq_true_iff]; omega
        rw [loopData_zero]
        simp only [hiff]
        split
        · rw [sendCmd_eq_emit]; congr 3; omega
        · rw [sendCmd_eq_emit]; congr 3
          exact Nat.mod_eq_of_lt (or_80_lt _ (by omega))
      rw [hdata]
      have hW1 : (Width + 255) % 256 < 256 := Nat.mod_lt _ (by norm_num)
      generalize (Width + 255) % 256 = W1 at *
      have hc0 : (Pos + 256 - 0) % 256 = Pos := by omega
      by_cases h0 : (Pos + 255) % 256 = 0
      · rw [if_pos h0]
        have hm : (if Pos = 0 then W1 % 128 else min (W1 % 128) Pos) = 0 + 1 := by
          rw [if_neg (by omega)]; omega
        rw [hm, range_map_succ]
        simp [Nat.mod_eq_of_lt hp]
      · rw [if_neg h0]
        have hr2 : (W1 + 255) % 256 % 128 = r := by omega
        have hF : decide ((W1 + 255) % 256 / 128 % 2 = 1) = decide (W1 / 128 % 2 = 1) := by
          congr 1
          apply propext
          omega
        have hm : (if Pos = 0 then W1 % 128 else min (W1 % 128) Pos) =
            (if (Pos + 255) % 256 = 0 then r else min r ((Pos + 255) % 256)) + 1 := by
          rw [if_neg h0]
          by_cases hz : Pos = 0
          · rw [if_pos hz]; omega
          · rw [if_neg hz]; omega
        rw [ih _ _ _ _ (Nat.mod_lt _ (by norm_num)) (by omega), emit_emit, hr2, hF, hm,
          range_map_succ]
        simp only [List.singleton_append, loopData_succ, hc0]
        congr 3
        apply List.map_congr_left
        intro k hk
        rw [List.mem_range, if_neg h0] at hk
        congr 3
        omega
    · rw [if_neg hr]
      have h0 : (Width + 255) % 256 % 128 = 0 := by omega
      simp [h0, emit_nil]

/-! ## `displayDec` in closed form -/

theorem decData_zero (Val Width : Nat) : decData Val Width 0 = Val % 10 := by
  simp [decData]

theorem decData_succ (Val Width k : Nat) (hn : Width % 128 ≠ 0) :
    decData Val Width (k + 1) =
      loopData (decide ((Width + 255) % 256 / 128 % 2 = 1)) (Val / 10) k := by
  rw [loopData_succ]
  unfold decData loopData
  rw [and_80]
  have hiff : (k + 1 = 0 ∨ 128 * (Width / 128 % 2) ≠ 0 ∨ Val / 10 ^ (k + 1) ≥ 10) ↔
      (Val / 10 ^ (k + 1) ≥ 10 ∨ decide ((Width + 255) % 256 / 128 % 2 = 1) = true) := by
    rw [decide_eq_true_iff]; omega
  simp only [hiff]

/-- The complete effect of `displayDec` for a position on the display and a
non-zero width: the commands it sends, in order. -/
theorem displayDec_eq (oc : Opcodes) (s : Driver) (Val Pos Width : Nat)
    (hp : Pos ≤ 31) (hn : Width &&& 0x7f ≠ 0) :
    displayDec oc s Val Pos Width =
      some (emit s ((List.range (decCount s.LowDigOnRight Pos (Width &&& 0x7f))).map
        (fun k => ((oc.DECODE_WT ||| decPos s.LowDigOnRight Pos k) % 256,
          decData Val Width k)))) := by
  have hn7 : Width % 128 ≠ 0 := by rwa [and_7f] at hn
  have hd0 : Val % 10 % 256 = Val % 10 := by omega
  unfold displayDec
  rw [if_neg (by rw [and_7f]; omega), and_7f]
  cases hO : s.LowDigOnRight with
  | true =>
    simp only [if_true, decCount, decPos]
    by_cases h31 : (Pos + 1) % 256 > 31
    · rw [if_pos h31]
      have hm : min (Width % 128) (32 - Pos) = 0 + 1 := by omega
      rw [hm, range_map_succ]
      simp [sendCmd_eq_emit, decData_zero, hd0]
    · rw [if_neg h31]
      have hP : (Pos + 1) % 256 = Pos + 1 := by omega
      have hm : min (Width % 128) (32 - Pos) =
          min ((Width + 255) % 256 % 128) (32 - (Pos + 1)) + 1 := by omega
      rw [decLoopRight_eq oc 256 _ _ _ _ (by omega) (by omega), emit_sendCmd, hP, hm,
        range_map_succ]
      simp only [Nat.add_zero, decData_zero, hd0, decData_succ _ _ _ hn7]
      congr 3
      apply List.map_congr_left
      intro k _
      congr 3
      omega
  | false =>
    simp only [Bool.false_eq_true, if_false, decCount, decPos]
    by_cases h0 : Pos = 0
    · rw [if_pos h0, if_pos h0]
      have hm : min (Width % 128) 1 = 0 + 1 := by omega
      rw [hm, range_map_succ]
      simp [sendCmd_eq_emit, decData_zero, h0, hd0]
    · rw [if_neg h0, if_neg h0]
      have hP : (Pos + 255) % 256 = Pos - 1 := by omega
      have hc0 : (Pos + 256 - 0) % 256 = Pos := by omega
      have hm : (if Pos = 1 then Width % 128 else min (Width % 128) Pos) =
          (if Pos - 1 = 0 then (Width + 255) % 256 % 128
            else min ((Width + 255) % 256 % 128) (Pos - 1)) + 1 := by
        by_cases h1 : Pos = 1
        · rw [if_pos h1, if_pos (by omega)]; omega
        · rw [if_neg h1, if_neg (by omega)]; omega
      rw [decLoopLeft_eq oc 256 _ _ _ _ (by omega) (by omega), emit_sendCmd, hP, hm,
        range_map_succ]
      simp only [decData_zero, hd0, decData_succ _ _ _ hn7, hc0]
      congr 3
      apply List.map_congr_left
      intro k _
      congr 3
      omega

/-! ## `displayHex` in closed form -/

theorem and_0f_mod (x : Nat) : (x &&& 0x0f) % 256 = x &&& 0x0f := by
  rw [and_0f]; omega

theorem shift_succ (Val k : Nat) : (Val >>> 4) >>> (4 * k) = Val >>> (4 * (k + 1)) := by
  rw [← Nat.shiftRight_add]
  congr 1
  omega

theorem hexLoopRight_eq (oc : Opcodes) :
    ∀ (fuel : Nat) (s : Driver) (Val Pos Width i : Nat), Width + Pos ≤ 255 →
      Width + Pos - i < fuel →
      hexLoopRight oc fuel s Val Pos Width i =
        some (emit s ((List.range (Width + Pos - i)).map
          (fun k => ((oc.DECODE_WT ||| (i + k)) % 256, (Val >>> (4 * k)) &&& 0x0f)))) := by
  intro fuel
  induction fuel with
  | zero => intro s Val Pos Width i _ hf; omega
  | succ fuel ih =>
    intro s Val Pos Width i hb hf
    rw [hexLoopRight]
    by_cases hi : i < Width + Pos
    · rw [if_pos hi]
      have hP : (i + 1) % 256 = i + 1 := by omega
      have hm : Width + Pos - i = (Width + Pos - (i + 1)) + 1 := by omega
      rw [hP, ih _ _ _ _ _ hb (by omega), emit_sendCmd, hm, range_map_succ]
      simp only [Nat.add_zero, Nat.mul_zero, Nat.shiftRight_zero, and_0f_mod, shift_succ]
      congr 3
      apply List.map_congr_left
      intro k _
      congr 3
      omega
    · rw [if_neg hi]
      have h0 : Width + Pos - i = 0 := by omega
      simp [h0, emit_nil]

theorem hexLoopLeft_eq (oc : Opcodes) :
    ∀ (fuel : Nat) (s : Driver) (Val Pos Width i : Nat), Width ≤ 255 →
      Width - i < fuel →
      hexLoopLeft oc fuel s Val Pos Width i =
        some (emit s ((List.range (Width - i)).map
          (fun k => ((oc.DECODE_WT ||| (Pos - (i + k))) % 256, (Val >>> (4 * k)) &&& 0x0f)))) := by
  intro fuel
  induction fuel with
  | zero => intro s Val Pos Width i _ hf; omega
  | succ fuel ih =>
    intro s Val Pos Width i hb hf
    rw [hexLoopLeft]
    by_cases hi : i < Width
    · rw [if_pos hi]
      have hP : (i + 1) % 256 = i + 1 := by omega
      have hm : Width - i = (Width - (i + 1)) + 1 := by omega
      rw [hP, ih _ _ _ _ _ hb (by omega), emit_sendCmd, hm, range_map_succ]
      simp only [Nat.add_zero, Nat.mul_zero, Nat.shiftRight_zero, and_0f_mod, shift_succ]
      congr 3
      apply List.map_congr_left
      intro k _
      congr 4
      omega
    · rw [if_neg hi]
      have h0 : Width - i = 0 := by omega
      simp [h0, emit_nil]

/-- The complete effect of `displayHex` for a position on the display: the
commands it sends, in order. -/
theorem displayHex_eq (oc : Opcodes) (s : Driver) (Val Pos Width : Nat) (hp : Pos ≤ 31) :
    displayHex oc s Val Pos Width =
      some (emit s ((List.range (hexCount s.LowDigOnRight Pos Width)).map
        (fun k => ((oc.DECODE_WT ||| hexPos s.LowDigOnRight Pos k) % 256,
          (Val >>> (4 * k)) &&& 0x0f)))) := by
  unfold displayHex
  rw [if_neg (by omega)]
  cases hO : s.LowDigOnRight with
  | true =>
    simp only [if_true, hexCount, hexPos]
    by_cases hw : Width + Pos > 32
    · rw [if_pos hw]
      have e : (32 - Pos) % 256 = 32 - Pos := by omega
      rw [e, hexLoopRight_eq oc 256 _ _ _ _ _ (by omega) (by omega)]
      congr 4
      omega
    · rw [if_neg hw, hexLoopRight_eq oc 256 _ _ _ _ _ (by omega) (by omega)]
      congr 4
      omega
  | false =>
    simp only [Bool.false_eq_true, if_false, hexCount, hexPos]
    by_cases hw : Width > Pos + 1
    · rw [if_pos hw]
      have e : (Pos + 1) % 256 = Pos + 1 := by omega
      rw [e, hexLoopLeft_eq oc 256 _ _ _ _ _ (by omega) (by omega)]
      simp only [Nat.zero_add]
      congr 4
      omega
    · rw [if_neg hw, hexLoopLeft_eq oc 256 _ _ _ _ _ (by omega) (by omega)]
      simp only [Nat.zero_add]
      congr 4
      omega

/-! ## Properties of `displayDec` -/

theorem range_map_getElem {α : Type} (m : Nat) (f : Nat → α) (k : Nat)
    (hk : k < ((List.range m).map f).length) : ((List.range m).map f)[k] = f k := by
  simp

theorem range_map_length {α : Type} (m : Nat) (f : Nat → α) :
    ((List.range m).map f).length = m := by
  simp

theorem digit_and_80 (d : Nat) (h : d ≤ 15) : d &&& 0x80 = 0 := by
  rw [and_80]; omega

/-- C1 (failing input): with the low digit on the left, `displayDec(123, 1, 3)`
writes digit 1, then digit 0, and then keeps going: `Pos--` wraps from 0 to 255,
the test `Pos == 0` that should stop the loop does not fire, and the third
command is sent with `Pos = 255`, outside the digit range 0..31. -/
theorem C1_displayDec_left_from_digit_one_wraps (oc : Opcodes) (uart : List Nat)
    (blinkH blinkL : Nat) :
    displayDec oc ⟨uart, false, blinkH, blinkL⟩ 123 1 3 =
      some (emit ⟨uart, false, blinkH, blinkL⟩
        [((oc.DECODE_WT ||| 1) % 256, 3), ((oc.DECODE_WT ||| 0) % 256, 2),
         ((oc.DECODE_WT ||| 255) % 256, 1 ||| 0x80)]) := by
  rw [displayDec_eq oc _ 123 1 3 (by decide) (by decide)]
  rfl

/-- C2: for a position on the display and a non-zero width, in either
orientation, `displayDec` sends at least one command, and the data byte of its
`k`-th command is `(Val / 10^k) % 10` when `k = 0`, or bit 7 of `Width` is set, or
`Val / 10^k ≥ 10`, and that digit with bit 7 set otherwise. -/
theorem C2_displayDec_data_bytes (oc : Opcodes) (s : Driver) (Val Pos Width : Nat)
    (hp : Pos ≤ 31) (hn : Width &&& 0x7f ≥ 1) :
    ∃ cmds : List (Nat × Nat),
      displayDec oc s Val Pos Width = some (emit s cmds) ∧ 0 < cmds.length ∧
      ∀ (k : Nat) (hk : k < cmds.length),
        (cmds[k]).2 =
          if k = 0 ∨ Width &&& 0x80 ≠ 0 ∨ Val / 10 ^ k ≥ 10 then Val / 10 ^ k % 10
          else (Val / 10 ^ k % 10) ||| 0x80 := by
  refine ⟨_, displayDec_eq oc s Val Pos Width hp (by omega), ?_, ?_⟩
  · rw [range_map_length]
    rw [and_7f] at hn ⊢
    unfold decCount
    split
    · omega
    · split
      · omega
      · split <;> omega
  · intro k hk
    rw [range_map_getElem]
    rfl

/-- C2 (witness): the theorem at value 7, position 0, width 4, low digit on the
right; the four data bytes are 7, 0x80, 0x80, 0x80. -/
theorem C2_displayDec_data_bytes_witness :
    (0 ≤ 31 ∧ 4 &&& 0x7f ≥ 1) ∧
    (∃ cmds : List (Nat × Nat),
      displayDec sampleOpcodes initial 7 0 4 = some (emit initial cmds) ∧ 0 < cmds.length ∧
      ∀ (k : Nat) (hk : k < cmds.length),
        (cmds[k]).2 =
          if k = 0 ∨ 4 &&& 0x80 ≠ 0 ∨ 7 / 10 ^ k ≥ 10 then 7 / 10 ^ k % 10
          else (7 / 10 ^ k % 10) ||| 0x80) ∧
    displayDec sampleOpcodes initial 7 0 4 =
      some (emit initial [(0x80, 7), (0x81, 0x80), (0x82, 0x80), (0x83, 0x80)]) :=
  ⟨⟨by decide, by decide⟩,
   C2_displayDec_data_bytes sampleOpcodes initial 7 0 4 (by decide) (by decide),
   by decide⟩

/-- C3: with the low digit on the right, for a position `Pos ≤ 31` and
`n = Width & 0x7f ≥ 1`, `displayDec` sends exactly `min n (32 - Pos)` commands and
the command byte of the `k`-th one is `DECODE_WT | (Pos + k)`. -/
theorem C3_displayDec_right_commands (oc : Opcodes) (s : Driver) (Val Pos Width : Nat)
    (hD : oc.DECODE_WT < 256) (hO : s.LowDigOnRight = true)
    (hp : Pos ≤ 31) (hn : Width &&& 0x7f ≥ 1) :
    ∃ cmds : List (Nat × Nat),
      displayDec oc s Val Pos Width = some (emit s cmds) ∧
      cmds.length = min (Width &&& 0x7f) (32 - Pos) ∧
      ∀ (k : Nat) (hk : k < cmds.length), (cmds[k]).1 = oc.DECODE_WT ||| (Pos + k) := by
  refine ⟨_, displayDec_eq oc s Val Pos Width hp (by omega), ?_, ?_⟩
  · rw [range_map_length, hO]
    rfl
  · intro k hk
    rw [range_map_length, hO] at hk
    simp only [decCount, if_true] at hk
    rw [range_map_getElem, hO]
    simp only [decPos, if_true]
    exact Nat.mod_eq_of_lt (or_lt_256 _ _ hD (by omega))

/-- C3 (witness): value 1234 at position 30 with width 5 is cut off after digit
31. -/
theorem C3_displayDec_right_commands_witness :
    (sampleOpcodes.DECODE_WT < 256 ∧ initial.LowDigOnRight = true ∧ 30 ≤ 31 ∧
      5 &&& 0x7f ≥ 1) ∧
    (∃ cmds : List (Nat × Nat),
      displayDec sampleOpcodes initial 1234 30 5 = some (emit initial cmds) ∧
      cmds.length = min (5 &&& 0x7f) (32 - 30) ∧
      ∀ (k : Nat) (hk : k < cmds.length),
        (cmds[k]).1 = sampleOpcodes.DECODE_WT ||| (30 + k)) ∧
    displayDec sampleOpcodes initial 1234 30 5 =
      some (emit initial [(0x80 ||| 30, 4), (0x80 ||| 31, 3)]) :=
  ⟨⟨by decide, by decide, by decide, by decide⟩,
   C3_displayDec_right_commands sampleOpcodes initial 1234 30 5 (by decide) (by decide)
     (by decide) (by decide),
   by decide⟩

/-- C4 (failing input): with the low digit on the left, `displayDec(123, 2, 3)`
sends only two commands, to digits 2 and 1.  The loop leaves on `Pos == 0`
before digit 0 is written, so the leading digit 1 of 123 never reaches the
display, although three digits were asked for and three are available. -/
theorem C4_displayDec_left_skips_digit_zero (oc : Opcodes) (uart : List Nat)
    (blinkH blinkL : Nat) :
    displayDec oc ⟨uart, false, blinkH, blinkL⟩ 123 2 3 =
      some (emit ⟨uart, false, blinkH, blinkL⟩
        [((oc.DECODE_WT ||| 2) % 256, 3), ((oc.DECODE_WT ||| 1) % 256, 2)]) := by
  rw [displayDec_eq oc _ 123 2 3 (by decide) (by decide)]
  rfl

/-! ## Properties of `displayHex` -/

theorem shift_high_nibbles (Val k : Nat) (hv : Val < 65536) (hk : 4 ≤ k) :
    (Val >>> (4 * k)) &&& 0x0f = 0 := by
  have hpow : 2 ^ 16 ≤ 2 ^ (4 * k) := Nat.pow_le_pow_right (by norm_num) (by omega)
  have hlt : Val < 2 ^ (4 * k) := lt_of_lt_of_le (by norm_num; exact hv) hpow
  rw [Nat.shiftRight_eq_div_pow, Nat.div_eq_of_lt hlt]
  rfl

/-- C5: with the low digit on the right, for a 16-bit value and a position
`Pos ≤ 31`, `displayHex` sends exactly `min Width (32 - Pos)` commands; the `k`-th
one is `(DECODE_WT | (Pos + k), (Val >> 4k) & 0xF)`, and its data is 0 from the
fifth command on. -/
theorem C5_displayHex_right_commands (oc : Opcodes) (s : Driver) (Val Pos Width : Nat)
    (hD : oc.DECODE_WT < 256) (hO : s.LowDigOnRight = true) (hv : Val < 65536)
    (hp : Pos ≤ 31) :
    ∃ cmds : List (Nat × Nat),
      displayHex oc s Val Pos Width = some (emit s cmds) ∧
      cmds.length = min Width (32 - Pos) ∧
      ∀ (k : Nat) (hk : k < cmds.length),
        cmds[k] = (oc.DECODE_WT ||| (Pos + k), (Val >>> (4 * k)) &&& 0xF) ∧
        (4 ≤ k → (cmds[k]).2 = 0) := by
  refine ⟨_, displayHex_eq oc s Val Pos Width hp, ?_, ?_⟩
  · rw [range_map_length, hO]
    rfl
  · intro k hk
    rw [range_map_length, hO] at hk
    simp only [hexCount, if_true] at hk
    rw [range_map_getElem, hO]
    simp only [hexPos, if_true]
    refine ⟨?_, fun h4 => shift_high_nibbles Val k hv h4⟩
    congr 1
    exact Nat.mod_eq_of_lt (or_lt_256 _ _ hD (by omega))

/-- C5 (witness): `displayHex(0xABCD, 0, 4)` sends 0xD, 0xC, 0xB, 0xA to digits
0, 1, 2, 3. -/
theorem C5_displayHex_right_commands_witness :
    (sampleOpcodes.DECODE_WT < 256 ∧ initial.LowDigOnRight = true ∧ 0xABCD < 65536 ∧
      0 ≤ 31) ∧
    (∃ cmds : List (Nat × Nat),
      displayHex sampleOpcodes initial 0xABCD 0 4 = some (emit initial cmds) ∧
      cmds.length = min 4 (32 - 0) ∧
      ∀ (k : Nat) (hk : k < cmds.length),
        cmds[k] = (sampleOpcodes.DECODE_WT ||| (0 + k), (0xABCD >>> (4 * k)) &&& 0xF) ∧
        (4 ≤ k → (cmds[k]).2 = 0)) ∧
    displayHex sampleOpcodes initial 0xABCD 0 4 =
      some (emit initial [(0x80 ||| 0, 0xD), (0x80 ||| 1, 0xC), (0x80 ||| 2, 0xB),
        (0x80 ||| 3, 0xA)]) :=
  ⟨⟨by decide, by decide, by decide, by decide⟩,
   C5_displayHex_right_commands sampleOpcodes initial 0xABCD 0 4 (by decide) (by decide)
     (by decide) (by decide),
   by decide⟩

/-- C6: with the low digit on the left, for every value, width and position
`Pos ≤ 31`, `displayHex` sends exactly `min Width (Pos + 1)` commands and the
`k`-th one is `(DECODE_WT | (Pos - k), (Val >> 4k) & 0xF)`. -/
theorem C6_displayHex_left_commands (oc : Opcodes) (s : Driver) (Val Pos Width : Nat)
    (hD : oc.DECODE_WT < 256) (hO : s.LowDigOnRight = false) (hp : Pos ≤ 31) :
    ∃ cmds : List (Nat × Nat),
      displayHex oc s Val Pos Width = some (emit s cmds) ∧
      cmds.length = min Width (Pos + 1) ∧
      ∀ (k : Nat) (hk : k < cmds.length),
        cmds[k] = (oc.DECODE_WT ||| (Pos - k), (Val >>> (4 * k)) &&& 0xF) := by
  refine ⟨_, displayHex_eq oc s Val Pos Width hp, ?_, ?_⟩
  · rw [range_map_length, hO]
    rfl
  · intro k hk
    rw [range_map_getElem, hO]
    simp only [hexPos, Bool.false_eq_true, if_false]
    congr 1
    exact Nat.mod_eq_of_lt (or_lt_256 _ _ hD (by omega))

/-- C6 (witness): `displayHex(0xABCD, 2, 200)` with the low digit on the left is
clamped to three commands, for digits 2, 1, 0. -/
theorem C6_displayHex_left_commands_witness :
    (sampleOpcodes.DECODE_WT < 256 ∧ (setDispLowDigOnLeft initial).LowDigOnRight = false ∧
      2 ≤ 31) ∧
    (∃ cmds : List (Nat × Nat),
      displayHex sampleOpcodes (setDispLowDigOnLeft initial) 0xABCD 2 200 =
        some (emit (setDispLowDigOnLeft initial) cmds) ∧
      cmds.length = min 200 (2 + 1) ∧
      ∀ (k : Nat) (hk : k < cmds.length),
        cmds[k] = (sampleOpcodes.DECODE_WT ||| (2 - k), (0xABCD >>> (4 * k)) &&& 0xF)) ∧
    displayHex sampleOpcodes (setDispLowDigOnLeft initial) 0xABCD 2 200 =
      some (emit (setDispLowDigOnLeft initial)
        [(0x80 ||| 2, 0xD), (0x80 ||| 1, 0xC), (0x80 ||| 0, 0xB)]) :=
  ⟨⟨by decide, by decide, by decide⟩,
   C6_displayHex_left_commands sampleOpcodes (setDispLowDigOnLeft initial) 0xABCD 2 200
     (by decide) (by decide) (by decide),
   by decide⟩

/-- C7: for a position in 0..31, any width and either orientation, every command
`displayHex` sends is `DECODE_WT | i` for the digit `i` it addresses, that digit
lies in 0..31, and the data byte is at most 0x0F, so its bit 7 is clear. -/
theorem C7_displayHex_commands_in_range (oc : Opcodes) (s : Driver) (Val Pos Width : Nat)
    (hD : oc.DECODE_WT < 256) (hp : Pos ≤ 31) :
    ∃ cmds : List (Nat × Nat),
      displayHex oc s Val Pos Width = some (emit s cmds) ∧
      ∀ (k : Nat) (hk : k < cmds.length),
        (cmds[k]).1 = oc.DECODE_WT ||| hexPos s.LowDigOnRight Pos k ∧
        hexPos s.LowDigOnRight Pos k ≤ 31 ∧
        (cmds[k]).2 ≤ 0x0F ∧ (cmds[k]).2 &&& 0x80 = 0 := by
  refine ⟨_, displayHex_eq oc s Val Pos Width hp, ?_⟩
  intro k hk
  rw [range_map_length] at hk
  have hpos : hexPos s.LowDigOnRight Pos k ≤ 31 := by
    unfold hexCount at hk
    unfold hexPos
    split
    · rename_i h; rw [if_pos h] at hk; omega
    · omega
  have hdata : (Val >>> (4 * k)) &&& 0x0f ≤ 15 := by rw [and_0f]; omega
  rw [range_map_getElem]
  exact ⟨Nat.mod_eq_of_lt (or_lt_256 _ _ hD (by omega)), hpos, hdata,
    digit_and_80 _ hdata⟩

/-- C7 (witness): position 31 with width 255, where `Pos + Width` does not fit in
eight bits, sends a single command, to digit 31. -/
theorem C7_displayHex_commands_in_range_witness :
    (sampleOpcodes.DECODE_WT < 256 ∧ 31 ≤ 31) ∧
    (∃ cmds : List (Nat × Nat),
      displayHex sampleOpcodes initial 0xABCD 31 255 = some (emit initial cmds) ∧
      ∀ (k : Nat) (hk : k < cmds.length),
        (cmds[k]).1 = sampleOpcodes.DECODE_WT ||| hexPos initial.LowDigOnRight 31 k ∧
        hexPos initial.LowDigOnRight 31 k ≤ 31 ∧
        (cmds[k]).2 ≤ 0x0F ∧ (cmds[k]).2 &&& 0x80 = 0) ∧
    displayHex sampleOpcodes initial 0xABCD 31 255 = some (emit initial [(0x80 ||| 31, 0xD)]) :=
  ⟨⟨by decide, by decide⟩,
   C7_displayHex_commands_in_range sampleOpcodes initial 0xABCD 31 255 (by decide)
     (by decide),
   by decide⟩

/-! ## `displayDec`: the width byte -/

theorem bytesOf_length (cs : List (Nat × Nat)) : (bytesOf cs).length = 2 * cs.length := by
  induction cs with
  | nil => rfl
  | cons c cs ih => simp [bytesOf, ih]; omega

theorem emit_length (s : Driver) (cs : List (Nat × Nat)) :
    (emit s cs).Uart.length = s.Uart.length + 2 * cs.length := by
  simp [emit, bytesOf_length]

/-- C8 (counterexample): at position 31 with width byte 0x82 (force bit set,
`Width & 0x7f = 2`) and the low digit on the right, `displayDec` does not send
two commands: it sends one, to digit 31, and returns. -/
theorem C8_force_count_counterexample :
    (31 ≤ 31 ∧ 0x82 &&& 0x80 ≠ 0) ∧
    displayDec sampleOpcodes initial 45 31 0x82 = some (emit initial [(0x80 ||| 31, 5)]) ∧
    ¬ ∃ cmds : List (Nat × Nat),
      displayDec sampleOpcodes initial 45 31 0x82 = some (emit initial cmds) ∧
      cmds.length = 0x82 &&& 0x7f := by
  refine ⟨⟨by decide, by decide⟩, by decide, ?_⟩
  rintro ⟨cmds, h, hlen⟩
  have h1 : displayDec sampleOpcodes initial 45 31 0x82 =
      some (emit initial [(0x80 ||| 31, 5)]) := by decide
  rw [h1, Option.some.injEq] at h
  have h2 := congrArg (fun d => d.Uart.length) h
  simp only [emit_length] at h2
  have h3 : (0x82 &&& 0x7f) = 2 := by decide
  rw [h3] at hlen
  simp only [List.length_singleton] at h2
  omega

/-- C8 (amended): for a position in 0..31 and a width byte with the force bit
set, `displayDec` sends `min (Width & 0x7f) (32 - Pos)` commands when the low
digit is on the right, hence exactly `Width & 0x7f` when
`Pos + (Width & 0x7f) ≤ 32`; when the low digit is on the left it sends exactly
`Width & 0x7f` commands provided `Width & 0x7f ≤ Pos` or `Width & 0x7f = 1`.
The count does not depend on bit 7 of the width byte, so the statement is proved
for every width byte. -/
theorem C8_displayDec_force_count (oc : Opcodes) (s : Driver) (Val Pos Width : Nat)
    (hp : Pos ≤ 31) :
    ∃ cmds : List (Nat × Nat),
      displayDec oc s Val Pos Width = some (emit s cmds) ∧
      (s.LowDigOnRight = true → cmds.length = min (Width &&& 0x7f) (32 - Pos)) ∧
      (s.LowDigOnRight = true → Pos + (Width &&& 0x7f) ≤ 32 →
        cmds.length = Width &&& 0x7f) ∧
      (s.LowDigOnRight = false → (Width &&& 0x7f ≤ Pos ∨ Width &&& 0x7f = 1) →
        cmds.length = Width &&& 0x7f) := by
  by_cases hn : Width &&& 0x7f = 0
  · refine ⟨[], ?_, ?_, ?_, ?_⟩
    · rw [emit_nil]
      unfold displayDec
      rw [if_pos (Or.inr hn)]
    · intro _; rw [hn]; simp
    · intro _ _; rw [hn]; rfl
    · intro _ _; rw [hn]; rfl
  · refine ⟨_, displayDec_eq oc s Val Pos Width hp hn, ?_, ?_, ?_⟩
    · intro hO
      rw [range_map_length, hO]
      rfl
    · intro hO hfit
      rw [range_map_length, hO]
      simp only [decCount, if_true]
      omega
    · intro hO hfit
      rw [range_map_length, hO]
      simp only [decCount, Bool.false_eq_true, if_false]
      split
      · omega
      · split <;> omega

/-- C8 (witness): width byte 0x83 at position 5, low digit on the right: three
commands. -/
theorem C8_displayDec_force_count_witness :
    (5 ≤ 31) ∧
    (∃ cmds : List (Nat × Nat),
      displayDec sampleOpcodes initial 7 5 0x83 = some (emit initial cmds) ∧
      (initial.LowDigOnRight = true → cmds.length = min (0x83 &&& 0x7f) (32 - 5)) ∧
      (initial.LowDigOnRight = true → 5 + (0x83 &&& 0x7f) ≤ 32 →
        cmds.length = 0x83 &&& 0x7f) ∧
      (initial.LowDigOnRight = false → (0x83 &&& 0x7f ≤ 5 ∨ 0x83 &&& 0x7f = 1) →
        cmds.length = 0x83 &&& 0x7f)) ∧
    displayDec sampleOpcodes initial 7 5 0x83 =
      some (emit initial [(0x80 ||| 5, 7), (0x80 ||| 6, 0), (0x80 ||| 7, 0)]) :=
  ⟨by decide,
   C8_displayDec_force_count sampleOpcodes initial 7 5 0x83 (by decide),
   by decide⟩

/-- C9: when bit 7 of the width byte is set, every data byte `displayDec` sends
is the plain decimal digit `(Val / 10^k) % 10`: it lies in 0..9 and its bit 7 is
clear, at every command and not only the first. -/
theorem C9_displayDec_force_plain_digits (oc : Opcodes) (s : Driver) (Val Pos Width : Nat)
    (hp : Pos ≤ 31) (hf : Width &&& 0x80 ≠ 0) :
    ∃ cmds : List (Nat × Nat),
      displayDec oc s Val Pos Width = some (emit s cmds) ∧
      ∀ (k : Nat) (hk : k < cmds.length),
        (cmds[k]).2 = Val / 10 ^ k % 10 ∧ (cmds[k]).2 ≤ 9 ∧ (cmds[k]).2 &&& 0x80 = 0 := by
  by_cases hn : Width &&& 0x7f = 0
  · refine ⟨[], ?_, ?_⟩
    · rw [emit_nil]
      unfold displayDec
      rw [if_pos (Or.inr hn)]
    · intro k hk
      exact absurd hk (by simp)
  · refine ⟨_, displayDec_eq oc s Val Pos Width hp hn, ?_⟩
    intro k hk
    rw [range_map_getElem]
    have hd : decData Val Width k = Val / 10 ^ k % 10 := by
      unfold decData
      rw [if_pos (Or.inr (Or.inl hf))]
    simp only [hd]
    have h9 : Val / 10 ^ k % 10 ≤ 9 := by omega
    exact ⟨trivial, h9, digit_and_80 _ (by omega)⟩

/-- C9 (witness): value 7 with width byte 0x84 gives the data bytes 7, 0, 0, 0,
none with bit 7 set. -/
theorem C9_displayDec_force_plain_digits_witness :
    (0 ≤ 31 ∧ 0x84 &&& 0x80 ≠ 0) ∧
    (∃ cmds : List (Nat × Nat),
      displayDec sampleOpcodes initial 7 0 0x84 = some (emit initial cmds) ∧
      ∀ (k : Nat) (hk : k < cmds.length),
        (cmds[k]).2 = 7 / 10 ^ k % 10 ∧ (cmds[k]).2 ≤ 9 ∧ (cmds[k]).2 &&& 0x80 = 0) ∧
    displayDec sampleOpcodes initial 7 0 0x84 =
      some (emit initial [(0x80, 7), (0x81, 0), (0x82, 0), (0x83, 0)]) :=
  ⟨⟨by decide, by decide⟩,
   C9_displayDec_force_plain_digits sampleOpcodes initial 7 0 0x84 (by decide) (by decide),
   by decide⟩

/-- C10: when `Width & 0x7f = 0`, `displayDec` returns at once: nothing is
written and the orientation flag and both blink masks are as before, for every
value and position. -/
theorem C10_displayDec_zero_width (oc : Opcodes) (s : Driver) (Val Pos Width : Nat)
    (hn : Width &&& 0x7f = 0) :
    displayDec oc s Val Pos Width = some s := by
  unfold displayDec
  rw [if_pos (Or.inr hn)]

/-- C10 (witness): the width bytes 0x00 and 0x80. -/
theorem C10_displayDec_zero_width_witness :
    (0x80 &&& 0x7f = 0 ∧ displayDec sampleOpcodes initial 1234 3 0x80 = some initial) ∧
    (0x00 &&& 0x7f = 0 ∧ displayDec sampleOpcodes initial 1234 3 0x00 = some initial) :=
  ⟨⟨by decide, C10_displayDec_zero_width sampleOpcodes initial 1234 3 0x80 (by decide)⟩,
   ⟨by decide, C10_displayDec_zero_width sampleOpcodes initial 1234 3 0x00 (by decide)⟩⟩

/-! ## Out-of-range digits and the role of the orientation -/

/-- C11: for a digit index above 31, `displayDec`, `displayHex` and `digitBlink`
return at once: the driver, with its byte stream, orientation flag and blink
masks, is exactly as before. -/
theorem C11_out_of_range_index_is_noop (oc : Opcodes) (s : Driver)
    (Val Index Width : Nat) (OnOff : Bool) (hi : 32 ≤ Index) :
    displayDec oc s Val Index Width = some s ∧
    displayHex oc s Val Index Width = some s ∧
    digitBlink oc s Index OnOff = s := by
  refine ⟨?_, ?_, ?_⟩
  · unfold displayDec
    rw [if_pos (Or.inl (by omega))]
  · unfold displayHex
    rw [if_pos (by omega)]
  · unfold digitBlink
    rw [if_pos (by omega)]

/-- C11 (witness): index 32 and index 255 after some bytes were already sent. -/
theorem C11_out_of_range_index_is_noop_witness :
    (32 ≤ 32 ∧
      displayDec sampleOpcodes initial 1234 32 4 = some initial ∧
      displayHex sampleOpcodes initial 1234 32 4 = some initial ∧
      digitBlink sampleOpcodes initial 32 true = initial) ∧
    (32 ≤ 255 ∧
      displayDec sampleOpcodes (sendCmd initial 1 2) 1234 255 0x84 =
        some (sendCmd initial 1 2) ∧
      displayHex sampleOpcodes (sendCmd initial 1 2) 1234 255 4 = some (sendCmd initial 1 2) ∧
      digitBlink sampleOpcodes (sendCmd initial 1 2) 255 false = sendCmd initial 1 2) :=
  ⟨⟨by decide, C11_out_of_range_index_is_noop sampleOpcodes initial 1234 32 4 true (by decide)⟩,
   ⟨by decide,
    C11_out_of_range_index_is_noop sampleOpcodes (sendCmd initial 1 2) 1234 255 0x84 false
      (by decide) |>.1,
    C11_out_of_range_index_is_noop sampleOpcodes (sendCmd initial 1 2) 1234 255 4 false
      (by decide) |>.2⟩⟩

/-- The closed form of `displayDec` also covers a zero width: then no command is
sent. -/
theorem displayDec_eq_all (oc : Opcodes) (s : Driver) (Val Pos Width : Nat) (hp : Pos ≤ 31) :
    displayDec oc s Val Pos Width =
      some (emit s ((List.range (decCount s.LowDigOnRight Pos (Width &&& 0x7f))).map
        (fun k => ((oc.DECODE_WT ||| decPos s.LowDigOnRight Pos k) % 256,
          decData Val Width k)))) := by
  by_cases hn : Width &&& 0x7f = 0
  · have hc : decCount s.LowDigOnRight Pos (Width &&& 0x7f) = 0 := by
      rw [hn]
      unfold decCount
      split
      · simp
      · split
        · simp
        · split <;> simp
    rw [hc]
    simp only [List.range_zero, List.map_nil, emit_nil]
    unfold displayDec
    rw [if_pos (Or.inr hn)]
  · exact displayDec_eq oc s Val Pos Width hp hn

theorem range_map_segment {α : Type} (f : Nat → α) (m n : Nat) (h : m ≤ n) :
    (List.range m).map f <+: (List.range n).map f := by
  obtain ⟨d, rfl⟩ := Nat.exists_eq_add_of_le h
  rw [List.range_add, List.map_append]
  exact List.prefix_append _ _

theorem range_map_segment_total {α : Type} (f : Nat → α) (m n : Nat) :
    (List.range m).map f <+: (List.range n).map f ∨
      (List.range n).map f <+: (List.range m).map f := by
  rcases Nat.le_total m n with h | h
  · exact Or.inl (range_map_segment f m n h)
  · exact Or.inr (range_map_segment f n m h)

/-- C12: for a position in 0..31, the data bytes `displayDec` sends with the low
digit on the right and with the low digit on the left agree at every index at
which both send a command, and one sequence of data bytes is a prefix of the
other; the same holds for `displayHex`. -/
theorem C12_orientation_keeps_data_bytes (oc : Opcodes) (s : Driver) (Val Pos Width : Nat)
    (hp : Pos ≤ 31) :
    (∃ cr cl : List (Nat × Nat),
      displayDec oc (setDispLowDigOnRight s) Val Pos Width =
        some (emit (setDispLowDigOnRight s) cr) ∧
      displayDec oc (setDispLowDigOnLeft s) Val Pos Width =
        some (emit (setDispLowDigOnLeft s) cl) ∧
      (∀ (k : Nat) (h1 : k < cr.length) (h2 : k < cl.length), (cr[k]).2 = (cl[k]).2) ∧
      (cr.map Prod.snd <+: cl.map Prod.snd ∨ cl.map Prod.snd <+: cr.map Prod.snd)) ∧
    (∃ cr cl : List (Nat × Nat),
      displayHex oc (setDispLowDigOnRight s) Val Pos Width =
        some (emit (setDispLowDigOnRight s) cr) ∧
      displayHex oc (setDispLowDigOnLeft s) Val Pos Width =
        some (emit (setDispLowDigOnLeft s) cl) ∧
      (∀ (k : Nat) (h1 : k < cr.length) (h2 : k < cl.length), (cr[k]).2 = (cl[k]).2) ∧
      (cr.map Prod.snd <+: cl.map Prod.snd ∨ cl.map Prod.snd <+: cr.map Prod.snd)) := by
  refine ⟨⟨_, _, displayDec_eq_all oc _ Val Pos Width hp,
      displayDec_eq_all oc _ Val Pos Width hp, ?_, ?_⟩,
    ⟨_, _, displayHex_eq oc _ Val Pos Width hp, displayHex_eq oc _ Val Pos Width hp, ?_, ?_⟩⟩
  · intro k h1 h2
    rw [range_map_getElem, range_map_getElem]
  · simp only [List.map_map]
    exact range_map_segment_total _ _ _
  · intro k h1 h2
    rw [range_map_getElem, range_map_getElem]
  · simp only [List.map_map]
    exact range_map_segment_total _ _ _

/-- C12 (witness): value 1234 at position 5 with width 3.  With the low digit on
the right the data bytes are 4, 3, 2; with the low digit on the left they are the
same three bytes, addressed to other digits. -/
theorem C12_orientation_keeps_data_bytes_witness :
    (5 ≤ 31) ∧
    ((∃ cr cl : List (Nat × Nat),
      displayDec sampleOpcodes (setDispLowDigOnRight initial) 1234 5 3 =
        some (emit (setDispLowDigOnRight initial) cr) ∧
      displayDec sampleOpcodes (setDispLowDigOnLeft initial) 1234 5 3 =
        some (emit (setDispLowDigOnLeft initial) cl) ∧
      (∀ (k : Nat) (h1 : k < cr.length) (h2 : k < cl.length), (cr[k]).2 = (cl[k]).2) ∧
      (cr.map Prod.snd <+: cl.map Prod.snd ∨ cl.map Prod.snd <+: cr.map Prod.snd)) ∧
    (∃ cr cl : List (Nat × Nat),
      displayHex sampleOpcodes (setDispLowDigOnRight initial) 1234 5 3 =
        some (emit (setDispLowDigOnRight initial) cr) ∧
      displayHex sampleOpcodes (setDispLowDigOnLeft initial) 1234 5 3 =
        some (emit (setDispLowDigOnLeft initial) cl) ∧
      (∀ (k : Nat) (h1 : k < cr.length) (h2 : k < cl.length), (cr[k]).2 = (cl[k]).2) ∧
      (cr.map Prod.snd <+: cl.map Prod.snd ∨ cl.map Prod.snd <+: cr.map Prod.snd))) ∧
    displayDec sampleOpcodes (setDispLowDigOnRight initial) 1234 5 3 =
      some (emit (setDispLowDigOnRight initial) [(0x85, 4), (0x86, 3), (0x87, 2)]) ∧
    displayDec sampleOpcodes (setDispLowDigOnLeft initial) 1234 5 3 =
      some (emit (setDispLowDigOnLeft initial) [(0x85, 4), (0x84, 3), (0x83, 2)]) :=
  ⟨by decide, C12_orientation_keeps_data_bytes sampleOpcodes initial 1234 5 3 (by decide),
   by decide, by decide⟩

/-! ## `digitBlink` -/

theorem and_07 (x : Nat) : x &&& 0x07 = x % 8 :=
  Nat.and_pow_two_sub_one_eq_mod x 3

theorem and_08 (x : Nat) : x &&& 0x08 = 8 * (x / 8 % 2) := by
  have h1 : x &&& 0x08 = (x % 16) &&& 0x08 := by
    have h := Nat.and_assoc x 15 8
    have e : x &&& 15 = x % 16 := Nat.and_pow_two_sub_one_eq_mod x 4
    rw [e] at h
    rw [h]
    rfl
  have h2 : ∀ y < 16, y &&& 0x08 = 8 * (y / 8 % 2) := by decide
  rw [h1, h2 _ (Nat.mod_lt _ (by norm_num))]
  omega

theorem BlinkBit_getD (d : Nat) : BlinkBit.getD (d &&& 0x07) 0 = 2 ^ (d % 8) := by
  rw [and_07]
  have h : d % 8 < 8 := Nat.mod_lt _ (by norm_num)
  generalize d % 8 = i at h
  interval_cases i <;> rfl

theorem testBit_set_byte (x i j : Nat) (hj : j < 8) :
    ((x ||| 2 ^ i) % 256).testBit j = (x.testBit j || decide (i = j)) := by
  have e : (256 : Nat) = 2 ^ 8 := by norm_num
  rw [e, Nat.testBit_mod_two_pow, Nat.testBit_or, Nat.testBit_two_pow]
  simp [hj]

theorem testBit_clear_byte (x i j : Nat) (hj : j < 8) :
    ((x &&& (0xff ^^^ 2 ^ i)) % 256).testBit j = (x.testBit j && !decide (i = j)) := by
  have e : (256 : Nat) = 2 ^ 8 := by norm_num
  have e2 : (0xff : Nat) = 2 ^ 8 - 1 := by norm_num
  rw [e, e2, Nat.testBit_mod_two_pow, Nat.testBit_and, Nat.testBit_xor,
    Nat.testBit_two_pow_sub_one, Nat.testBit_two_pow]
  simp [hj]

theorem blinkMask_lt (old d : Nat) (e : Bool) : blinkMask old d e < 256 := by
  unfold blinkMask
  split <;> exact Nat.mod_lt _ (by norm_num)

theorem blinkMask_testBit (old d j : Nat) (e : Bool) (hj : j < 8) :
    (blinkMask old d e).testBit j = if d % 8 = j then e else old.testBit j := by
  unfold blinkMask
  cases e with
  | true =>
    rw [if_pos rfl, testBit_set_byte _ _ _ hj]
    by_cases h : d % 8 = j <;> simp [h]
  | false =>
    rw [if_neg (by simp), testBit_clear_byte _ _ _ hj]
    by_cases h : d % 8 = j <;> simp [h]

theorem testBit_byte_high (x i : Nat) (hx : x < 256) (hi : 8 ≤ i) : x.testBit i = false := by
  apply Nat.testBit_lt_two_pow
  have h : 2 ^ 8 ≤ 2 ^ i := Nat.pow_le_pow_right (by norm_num) hi
  omega

theorem blinkMask_testBit_all (old d i : Nat) (e : Bool) (hold : old < 256) :
    (blinkMask old d e).testBit i = if i = d % 8 then e else old.testBit i := by
  by_cases hi : i < 8
  · rw [blinkMask_testBit _ _ _ _ hi]
    by_cases h : d % 8 = i
    · rw [if_pos h, if_pos h.symm]
    · rw [if_neg h, if_neg (fun h' => h h'.symm)]
  · have hd : d % 8 < 8 := Nat.mod_lt _ (by norm_num)
    rw [if_neg (by omega), testBit_byte_high _ _ (blinkMask_lt _ _ _) (by omega),
      testBit_byte_high _ _ hold (by omega)]

theorem blinkMask_of_byte (old d : Nat) (e : Bool) (hold : old < 256) :
    blinkMask old d e =
      if e then old ||| 2 ^ (d &&& 0x07) else old &&& (0xff ^^^ 2 ^ (d &&& 0x07)) := by
  have hd : d % 8 < 8 := Nat.mod_lt _ (by norm_num)
  have hb : 2 ^ (d % 8) < 256 := by
    have : 2 ^ (d % 8) < 2 ^ 8 := Nat.pow_lt_pow_right (by norm_num) hd
    omega
  unfold blinkMask
  rw [and_07]
  cases e with
  | true =>
    simp only [if_true]
    exact Nat.mod_eq_of_lt (or_lt_256 _ _ hold hb)
  | false =>
    simp only [Bool.false_eq_true, if_false]
    exact Nat.mod_eq_of_lt (lt_of_le_of_lt Nat.and_le_left hold)

/-- `digitBlink` on a digit of the group 16..23. -/
theorem digitBlink_eq_L (oc : Opcodes) (s : Driver) (d : Nat) (e : Bool)
    (h16 : 16 ≤ d) (h23 : d ≤ 23) :
    digitBlink oc s d e =
      ⟨s.Uart ++ [oc.BLINK_DIG_CTL % 256, blinkMask s.BlinkCtlL d e], s.LowDigOnRight,
        s.BlinkCtlH, blinkMask s.BlinkCtlL d e⟩ := by
  unfold digitBlink
  rw [if_neg (by omega), if_neg (by omega), and_08, BlinkBit_getD]
  have h8 : ¬ (8 * (d / 8 % 2) ≠ 0) := by omega
  simp only [h8, if_false, sendCmd]
  have hm := blinkMask_lt s.BlinkCtlL d e
  unfold blinkMask at hm ⊢
  cases e <;> simp_all [Nat.mod_eq_of_lt]

/-- `digitBlink` on a digit of the group 24..31. -/
theorem digitBlink_eq_H (oc : Opcodes) (s : Driver) (d : Nat) (e : Bool)
    (h24 : 24 ≤ d) (h31 : d ≤ 31) :
    digitBlink oc s d e =
      ⟨s.Uart ++ [(oc.BLINK_DIG_CTL + 1) % 256, blinkMask s.BlinkCtlH d e], s.LowDigOnRight,
        blinkMask s.BlinkCtlH d e, s.BlinkCtlL⟩ := by
  unfold digitBlink
  rw [if_neg (by omega), if_neg (by omega), and_08, BlinkBit_getD]
  have h8 : 8 * (d / 8 % 2) ≠ 0 := by omega
  simp only [h8, if_true, sendCmd]
  have hm := blinkMask_lt s.BlinkCtlH d e
  unfold blinkMask at hm ⊢
  cases e <;> simp_all [Nat.mod_eq_of_lt]

/-- `digitBlink` on a digit below 16. -/
theorem digitBlink_eq_low (oc : Opcodes) (s : Driver) (d : Nat) (e : Bool) (h : d < 16) :
    digitBlink oc s d e =
      ⟨s.Uart ++ [((if e then oc.BLINK_WT_SET else oc.BLINK_WT_CLR) ||| d) % 256, 0xff],
        s.LowDigOnRight, s.BlinkCtlH, s.BlinkCtlL⟩ := by
  unfold digitBlink
  rw [if_neg (by omega), if_pos h]
  cases e <;> simp [sendCmd]

theorem digitBlink_L_unchanged (oc : Opcodes) (s : Driver) (d : Nat) (e : Bool)
    (h : d < 16 ∨ 24 ≤ d) : (digitBlink oc s d e).BlinkCtlL = s.BlinkCtlL := by
  by_cases h31 : 31 < d
  · unfold digitBlink; rw [if_pos h31]
  · by_cases h16 : d < 16
    · rw [digitBlink_eq_low oc s d e h16]
    · rw [digitBlink_eq_H oc s d e (by omega) (by omega)]

theorem digitBlink_H_unchanged (oc : Opcodes) (s : Driver) (d : Nat) (e : Bool)
    (h : d < 24 ∨ 31 < d) : (digitBlink oc s d e).BlinkCtlH = s.BlinkCtlH := by
  by_cases h31 : 31 < d
  · unfold digitBlink; rw [if_pos h31]
  · by_cases h16 : d < 16
    · rw [digitBlink_eq_low oc s d e h16]
    · rw [digitBlink_eq_L oc s d e (by omega) (by omega)]

theorem digitBlink_L_testBit (oc : Opcodes) (s : Driver) (d j : Nat) (e : Bool) (hj : j < 8) :
    (digitBlink oc s d e).BlinkCtlL.testBit j =
      if d = 16 + j then e else s.BlinkCtlL.testBit j := by
  by_cases hg : 16 ≤ d ∧ d ≤ 23
  · rw [digitBlink_eq_L oc s d e hg.1 hg.2]
    simp only [blinkMask_testBit _ _ _ _ hj]
    by_cases h : d % 8 = j
    · rw [if_pos h, if_pos (by omega)]
    · rw [if_neg h, if_neg (by omega)]
  · rw [digitBlink_L_unchanged oc s d e (by omega), if_neg (by omega)]

theorem digitBlink_H_testBit (oc : Opcodes) (s : Driver) (d j : Nat) (e : Bool) (hj : j < 8) :
    (digitBlink oc s d e).BlinkCtlH.testBit j =
      if d = 24 + j then e else s.BlinkCtlH.testBit j := by
  by_cases hg : 24 ≤ d ∧ d ≤ 31
  · rw [digitBlink_eq_H oc s d e hg.1 hg.2]
    simp only [blinkMask_testBit _ _ _ _ hj]
    by_cases h : d % 8 = j
    · rw [if_pos h, if_pos (by omega)]
    · rw [if_neg h, if_neg (by omega)]
  · rw [digitBlink_H_unchanged oc s d e (by omega), if_neg (by omega)]

theorem digitBlink_masks_lt (oc : Opcodes) (s : Driver) (d : Nat) (e : Bool)
    (hL : s.BlinkCtlL < 256) (hH : s.BlinkCtlH < 256) :
    (digitBlink oc s d e).BlinkCtlL < 256 ∧ (digitBlink oc s d e).BlinkCtlH < 256 := by
  by_cases h31 : 31 < d
  · unfold digitBlink; rw [if_pos h31]; exact ⟨hL, hH⟩
  · by_cases h16 : d < 16
    · rw [digitBlink_eq_low oc s d e h16]; exact ⟨hL, hH⟩
    · by_cases h24 : 24 ≤ d
      · rw [digitBlink_eq_H oc s d e h24 (by omega)]; exact ⟨hL, blinkMask_lt _ _ _⟩
      · rw [digitBlink_eq_L oc s d e (by omega) (by omega)]; exact ⟨blinkMask_lt _ _ _, hH⟩

theorem digitBlinkSeq_masks (oc : Opcodes) (calls : List (Nat × Bool)) :
    ∀ (s : Driver) (j : Nat), j < 8 →
      (digitBlinkSeq oc s calls).BlinkCtlL.testBit j =
        lastFlag (16 + j) (s.BlinkCtlL.testBit j) calls ∧
      (digitBlinkSeq oc s calls).BlinkCtlH.testBit j =
        lastFlag (24 + j) (s.BlinkCtlH.testBit j) calls := by
  induction calls with
  | nil => intro s j _; exact ⟨rfl, rfl⟩
  | cons c cs ih =>
    intro s j hj
    have h := ih (digitBlink oc s c.1 c.2) j hj
    rw [digitBlink_L_testBit _ _ _ _ _ hj, digitBlink_H_testBit _ _ _ _ _ hj] at h
    exact h

theorem digitBlinkSeq_masks_lt (oc : Opcodes) (calls : List (Nat × Bool)) :
    ∀ (s : Driver), s.BlinkCtlL < 256 → s.BlinkCtlH < 256 →
      (digitBlinkSeq oc s calls).BlinkCtlL < 256 ∧
      (digitBlinkSeq oc s calls).BlinkCtlH < 256 := by
  induction calls with
  | nil => intro s hL hH; exact ⟨hL, hH⟩
  | cons c cs ih =>
    intro s hL hH
    have h := digitBlink_masks_lt oc s c.1 c.2 hL hH
    exact ih _ h.1 h.2

/-- C13: starting from `BlinkCtlL = BlinkCtlH = 0`, after any sequence of
`digitBlink` calls bit `j` of `BlinkCtlL` is set exactly when the most recent call
on digit `16 + j` had `OnOff = true` (clear when there was none), and bit `j` of
`BlinkCtlH` likewise for digit `24 + j`; both masks stay bytes.  A single call on
a digit below 16, above 31 or in the other group leaves a mask as it is. -/
theorem C13_blink_masks_track_last_call (oc : Opcodes) (s : Driver)
    (calls : List (Nat × Bool)) (j : Nat)
    (hL : s.BlinkCtlL = 0) (hH : s.BlinkCtlH = 0) (hj : j < 8) :
    (digitBlinkSeq oc s calls).BlinkCtlL.testBit j = lastFlag (16 + j) false calls ∧
    (digitBlinkSeq oc s calls).BlinkCtlH.testBit j = lastFlag (24 + j) false calls ∧
    (digitBlinkSeq oc s calls).BlinkCtlL < 256 ∧
    (digitBlinkSeq oc s calls).BlinkCtlH < 256 ∧
    (∀ (t : Driver) (d : Nat) (e : Bool), d < 16 ∨ 24 ≤ d →
      (digitBlink oc t d e).BlinkCtlL = t.BlinkCtlL) ∧
    (∀ (t : Driver) (d : Nat) (e : Bool), d < 24 ∨ 31 < d →
      (digitBlink oc t d e).BlinkCtlH = t.BlinkCtlH) := by
  have h := digitBlinkSeq_masks oc calls s j hj
  have hlt := digitBlinkSeq_masks_lt oc calls s (by omega) (by omega)
  rw [hL, hH] at h
  simp only [Nat.zero_testBit] at h
  exact ⟨h.1, h.2, hlt.1, hlt.2, fun t d e hd => digitBlink_L_unchanged oc t d e hd,
    fun t d e hd => digitBlink_H_unchanged oc t d e hd⟩

/-- C13 (witness): `digitBlink(20, true)`, `digitBlink(21, true)`,
`digitBlink(20, false)` on a fresh driver: bit 4 of `BlinkCtlL` ends clear, and
the three `BLINK_DIG_CTL` commands carry 0x10, 0x30, 0x20. -/
theorem C13_blink_masks_track_last_call_witness :
    (initial.BlinkCtlL = 0 ∧ initial.BlinkCtlH = 0 ∧ 4 < 8) ∧
    ((digitBlinkSeq sampleOpcodes initial
        [(20, true), (21, true), (20, false)]).BlinkCtlL.testBit 4 =
      lastFlag (16 + 4) false [(20, true), (21, true), (20, false)]) ∧
    lastFlag (16 + 4) false [(20, true), (21, true), (20, false)] = false ∧
    digitBlinkSeq sampleOpcodes initial [(20, true), (21, true), (20, false)] =
      ⟨[0xd0, 0x10, 0xd0, 0x30, 0xd0, 0x20], true, 0, 0x20⟩ :=
  ⟨⟨by decide, by decide, by decide⟩,
   (C13_blink_masks_track_last_call sampleOpcodes initial
     [(20, true), (21, true), (20, false)] 4 (by decide) (by decide) (by decide)).1,
   by decide, by decide⟩

/-- C14: for a digit `d` in 16..31, `digitBlink` sends exactly one command.  For
`d` in 16..23 it is `(BLINK_DIG_CTL, m)`, where `m` is the old `BlinkCtlL` with bit
`d & 7` set (`OnOff`) or cleared; `BlinkCtlL` becomes `m` and `BlinkCtlH` keeps its
value.  For `d` in 24..31 it is `(BLINK_DIG_CTL + 1, m)` with `m` obtained in the
same way from `BlinkCtlH`, which becomes `m`, and `BlinkCtlL` keeps its value.
The orientation flag is not touched. -/
theorem C14_digitBlink_extended_digit (oc : Opcodes) (s : Driver) (d : Nat) (e : Bool)
    (hC : oc.BLINK_DIG_CTL + 1 < 256) (hL : s.BlinkCtlL < 256) (hH : s.BlinkCtlH < 256)
    (h16 : 16 ≤ d) (h31 : d ≤ 31) :
    (d ≤ 23 → ∃ m : Nat,
      m = (if e then s.BlinkCtlL ||| 2 ^ (d &&& 0x07)
            else s.BlinkCtlL &&& (0xff ^^^ 2 ^ (d &&& 0x07))) ∧
      (∀ i : Nat, m.testBit i = if i = d &&& 0x07 then e else s.BlinkCtlL.testBit i) ∧
      digitBlink oc s d e =
        ⟨s.Uart ++ [oc.BLINK_DIG_CTL, m], s.LowDigOnRight, s.BlinkCtlH, m⟩) ∧
    (24 ≤ d → ∃ m : Nat,
      m = (if e then s.BlinkCtlH ||| 2 ^ (d &&& 0x07)
            else s.BlinkCtlH &&& (0xff ^^^ 2 ^ (d &&& 0x07))) ∧
      (∀ i : Nat, m.testBit i = if i = d &&& 0x07 then e else s.BlinkCtlH.testBit i) ∧
      digitBlink oc s d e =
        ⟨s.Uart ++ [oc.BLINK_DIG_CTL + 1, m], s.LowDigOnRight, m, s.BlinkCtlL⟩) := by
  constructor
  · intro h23
    refine ⟨blinkMask s.BlinkCtlL d e, blinkMask_of_byte _ _ _ hL, ?_, ?_⟩
    · intro i
      rw [and_07]
      exact blinkMask_testBit_all _ _ _ _ hL
    · rw [digitBlink_eq_L oc s d e h16 h23, Nat.mod_eq_of_lt (by omega)]
  · intro h24
    refine ⟨blinkMask s.BlinkCtlH d e, blinkMask_of_byte _ _ _ hH, ?_, ?_⟩
    · intro i
      rw [and_07]
      exact blinkMask_testBit_all _ _ _ _ hH
    · rw [digitBlink_eq_H oc s d e h24 h31, Nat.mod_eq_of_lt hC]

/-- C14 (witness): with `BlinkCtlL = 0x10`, `digitBlink(21, true)` sends
`(BLINK_DIG_CTL, 0x30)`; with `BlinkCtlH = 0x81`, `digitBlink(31, false)` sends
`(BLINK_DIG_CTL + 1, 0x01)`. -/
theorem C14_digitBlink_extended_digit_witness :
    (sampleOpcodes.BLINK_DIG_CTL + 1 < 256 ∧ (0x10 : Nat) < 256 ∧ (0x81 : Nat) < 256 ∧
      16 ≤ 21 ∧ 21 ≤ 31) ∧
    ((21 ≤ 23 → ∃ m : Nat,
      m = (if true then (0x10 : Nat) ||| 2 ^ (21 &&& 0x07)
            else 0x10 &&& (0xff ^^^ 2 ^ (21 &&& 0x07))) ∧
      (∀ i : Nat, m.testBit i = if i = 21 &&& 0x07 then true else (0x10 : Nat).testBit i) ∧
      digitBlink sampleOpcodes ⟨[], true, 0x81, 0x10⟩ 21 true =
        ⟨[] ++ [sampleOpcodes.BLINK_DIG_CTL, m], true, 0x81, m⟩) ∧
    (24 ≤ 21 → ∃ m : Nat,
      m = (if true then (0x81 : Nat) ||| 2 ^ (21 &&& 0x07)
            else 0x81 &&& (0xff ^^^ 2 ^ (21 &&& 0x07))) ∧
      (∀ i : Nat, m.testBit i = if i = 21 &&& 0x07 then true else (0x81 : Nat).testBit i) ∧
      digitBlink sampleOpcodes ⟨[], true, 0x81, 0x10⟩ 21 true =
        ⟨[] ++ [sampleOpcodes.BLINK_DIG_CTL + 1, m], true, m, 0x10⟩)) ∧
    digitBlink sampleOpcodes ⟨[], true, 0x81, 0x10⟩ 21 true = ⟨[0xd0, 0x30], true, 0x81, 0x30⟩ ∧
    digitBlink sampleOpcodes ⟨[], true, 0x81, 0x10⟩ 31 false =
      ⟨[0xd1, 0x01], true, 0x01, 0x10⟩ :=
  ⟨⟨by decide, by decide, by decide, by decide, by decide⟩,
   C14_digitBlink_extended_digit sampleOpcodes ⟨[], true, 0x81, 0x10⟩ 21 true (by decide)
     (by decide) (by decide) (by decide) (by decide),
   by decide, by decide⟩

/-- C15: for a digit `d` in 0..15, `digitBlink` sends exactly one command,
`(BLINK_WT_SET | d, 0xFF)` when `OnOff` is true and `(BLINK_WT_CLR | d, 0xFF)` when
it is false; both blink masks and the orientation flag keep their values. -/
theorem C15_digitBlink_direct_digit (oc : Opcodes) (s : Driver) (d : Nat)
    (hS : oc.BLINK_WT_SET < 256) (hC : oc.BLINK_WT_CLR < 256) (hd : d ≤ 15) :
    digitBlink oc s d true =
      ⟨s.Uart ++ [oc.BLINK_WT_SET ||| d, 0xFF], s.LowDigOnRight, s.BlinkCtlH, s.BlinkCtlL⟩ ∧
    digitBlink oc s d false =
      ⟨s.Uart ++ [oc.BLINK_WT_CLR ||| d, 0xFF], s.LowDigOnRight, s.BlinkCtlH, s.BlinkCtlL⟩ := by
  constructor
  · rw [digitBlink_eq_low oc s d true (by omega)]
    simp only [if_true]
    rw [Nat.mod_eq_of_lt (or_lt_256 _ _ hS (by omega))]
  · rw [digitBlink_eq_low oc s d false (by omega)]
    simp only [Bool.false_eq_true, if_false]
    rw [Nat.mod_eq_of_lt (or_lt_256 _ _ hC (by omega))]

/-- C15 (witness): digit 5 on a driver whose masks are 0x81 and 0x10. -/
theorem C15_digitBlink_direct_digit_witness :
    (sampleOpcodes.BLINK_WT_SET < 256 ∧ sampleOpcodes.BLINK_WT_CLR < 256 ∧ 5 ≤ 15) ∧
    (digitBlink sampleOpcodes ⟨[], false, 0x81, 0x10⟩ 5 true =
      ⟨[] ++ [sampleOpcodes.BLINK_WT_SET ||| 5, 0xFF], false, 0x81, 0x10⟩ ∧
    digitBlink sampleOpcodes ⟨[], false, 0x81, 0x10⟩ 5 false =
      ⟨[] ++ [sampleOpcodes.BLINK_WT_CLR ||| 5, 0xFF], false, 0x81, 0x10⟩) ∧
    digitBlink sampleOpcodes ⟨[], false, 0x81, 0x10⟩ 5 true =
      ⟨[0x35, 0xFF], false, 0x81, 0x10⟩ :=
  ⟨⟨by decide, by decide, by decide⟩,
   C15_digitBlink_direct_digit sampleOpcodes ⟨[], false, 0x81, 0x10⟩ 5 (by decide)
     (by decide) (by decide),
   by decide⟩

/-! ## `clear` -/

theorem clearLoop_eq (oc : Opcodes) :
    ∀ (fuel : Nat) (s : Driver) (i : Nat), 16 - i < fuel →
      clearLoop oc fuel s i =
        some (emit s ((List.range (16 - i)).map
          (fun k => ((oc.BLINK_WT_CLR ||| (i + k)) % 256, 0xff)))) := by
  intro fuel
  induction fuel with
  | zero => intro s i hf; omega
  | succ fuel ih =>
    intro s i hf
    rw [clearLoop]
    by_cases hi : i < 0x10
    · rw [if_pos hi]
      have hP : (i + 1) % 256 = i + 1 := by omega
      have hm : 16 - i = (16 - (i + 1)) + 1 := by omega
      rw [hP, ih _ _ (by omega), emit_sendCmd, hm, range_map_succ]
      simp only [Nat.add_zero]
      congr 3
      apply List.map_congr_left
      intro k _
      congr 3
      omega
    · rw [if_neg hi]
      have h0 : 16 - i = 0 := by omega
      simp [h0, emit_nil]

/-- The frames `clear` writes. -/
theorem clear_eq (oc : Opcodes) (s : Driver) :
    clear oc s =
      some ⟨s.Uart ++ bytesOf ([(oc.WRITE_ALL % 256, 0x00)] ++
          (List.range 16).map (fun i => ((oc.BLINK_WT_CLR ||| i) % 256, 0xff)) ++
          [(oc.BLINK_DIG_CTL % 256, 0x00), ((oc.BLINK_DIG_CTL + 1) % 256, 0x00)]),
        s.LowDigOnRight, 0, 0⟩ := by
  unfold clear
  simp only [clearLoop_eq oc 256 _ 0 (by omega), Nat.sub_zero, Nat.zero_add]
  simp [emit, sendCmd, bytesOf, bytesOf_append]

/-- C16: from every state `clear` sends exactly 19 commands, in this order:
`(WRITE_ALL, 0x00)`, then `(BLINK_WT_CLR | i, 0xFF)` for `i = 0, ..., 15`, then
`(BLINK_DIG_CTL, 0x00)` and `(BLINK_DIG_CTL + 1, 0x00)`.  Afterwards both blink
masks are 0 and the orientation flag has its old value. -/
theorem C16_clear_commands (oc : Opcodes) (s : Driver)
    (hW : oc.WRITE_ALL < 256) (hB : oc.BLINK_WT_CLR < 256)
    (hC : oc.BLINK_DIG_CTL + 1 < 256) :
    ∃ cmds : List (Nat × Nat),
      cmds = [(oc.WRITE_ALL, 0x00)] ++
        (List.range 16).map (fun i => (oc.BLINK_WT_CLR ||| i, 0xFF)) ++
        [(oc.BLINK_DIG_CTL, 0x00), (oc.BLINK_DIG_CTL + 1, 0x00)] ∧
      cmds.length = 19 ∧
      clear oc s = some ⟨s.Uart ++ bytesOf cmds, s.LowDigOnRight, 0, 0⟩ := by
  refine ⟨_, rfl, by simp, ?_⟩
  rw [clear_eq, Nat.mod_eq_of_lt hW, Nat.mod_eq_of_lt hC, Nat.mod_eq_of_lt (by omega)]
  congr 6
  apply List.map_congr_left
  intro i hi
  rw [List.mem_range] at hi
  rw [Nat.mod_eq_of_lt (or_lt_256 _ _ hB (by omega))]

/-- C16 (witness): `clear` on a driver with the low digit on the left and stale
blink masks. -/
theorem C16_clear_commands_witness :
    (sampleOpcodes.WRITE_ALL < 256 ∧ sampleOpcodes.BLINK_WT_CLR < 256 ∧
      sampleOpcodes.BLINK_DIG_CTL + 1 < 256) ∧
    (∃ cmds : List (Nat × Nat),
      cmds = [(sampleOpcodes.WRITE_ALL, 0x00)] ++
        (List.range 16).map (fun i => (sampleOpcodes.BLINK_WT_CLR ||| i, 0xFF)) ++
        [(sampleOpcodes.BLINK_DIG_CTL, 0x00), (sampleOpcodes.BLINK_DIG_CTL + 1, 0x00)] ∧
      cmds.length = 19 ∧
      clear sampleOpcodes ⟨[], false, 0x81, 0x10⟩ =
        some ⟨[] ++ bytesOf cmds, false, 0, 0⟩) ∧
    clear sampleOpcodes ⟨[], false, 0x81, 0x10⟩ =
      some ⟨[0xf1, 0x00,
        0x20, 0xff, 0x21, 0xff, 0x22, 0xff, 0x23, 0xff, 0x24, 0xff, 0x25, 0xff, 0x26, 0xff,
        0x27, 0xff, 0x28, 0xff, 0x29, 0xff, 0x2a, 0xff, 0x2b, 0xff, 0x2c, 0xff, 0x2d, 0xff,
        0x2e, 0xff, 0x2f, 0xff,
        0xd0, 0x00, 0xd1, 0x00], false, 0, 0⟩ :=
  ⟨⟨by decide, by decide, by decide⟩,
   C16_clear_commands sampleOpcodes ⟨[], false, 0x81, 0x10⟩ (by decide) (by decide)
     (by decide),
   by decide⟩

theorem blinkMask_zero_set (d : Nat) : blinkMask 0 d true = 1 <<< (d &&& 0x07) := by
  have hd : d % 8 < 8 := Nat.mod_lt _ (by norm_num)
  have hb : 2 ^ (d % 8) < 2 ^ 8 := Nat.pow_lt_pow_right (by norm_num) hd
  unfold blinkMask
  rw [if_pos rfl, Nat.zero_or, and_07, Nat.one_shiftLeft]
  exact Nat.mod_eq_of_lt (by omega)

/-- C17: whatever the blink masks were, after `clear` a call `digitBlink(d, true)`
with `d` in 16..31 sends a control byte with bit `d & 7` set and no other bit:
`(BLINK_DIG_CTL, 1 << (d & 7))` for `d` in 16..23 and
`(BLINK_DIG_CTL + 1, 1 << (d & 7))` for `d` in 24..31. -/
theorem C17_clear_then_digitBlink (oc : Opcodes) (s : Driver) (d : Nat)
    (hC : oc.BLINK_DIG_CTL + 1 < 256) (h16 : 16 ≤ d) (h31 : d ≤ 31) :
    ∃ s1 : Driver, clear oc s = some s1 ∧
      (d ≤ 23 → digitBlink oc s1 d true =
        ⟨s1.Uart ++ [oc.BLINK_DIG_CTL, 1 <<< (d &&& 0x07)], s.LowDigOnRight, 0,
          1 <<< (d &&& 0x07)⟩) ∧
      (24 ≤ d → digitBlink oc s1 d true =
        ⟨s1.Uart ++ [oc.BLINK_DIG_CTL + 1, 1 <<< (d &&& 0x07)], s.LowDigOnRight,
          1 <<< (d &&& 0x07), 0⟩) := by
  refine ⟨_, clear_eq oc s, ?_, ?_⟩
  · intro h23
    rw [digitBlink_eq_L oc _ d true h16 h23]
    simp only [blinkMask_zero_set, Nat.mod_eq_of_lt (show oc.BLINK_DIG_CTL < 256 by omega)]
  · intro h24
    rw [digitBlink_eq_H oc _ d true h24 h31]
    simp only [blinkMask_zero_set, Nat.mod_eq_of_lt hC]

/-- C17 (witness): with stale masks 0x81 and 0x10, `clear` followed by
`digitBlink(24, true)` ends with the command `(BLINK_DIG_CTL + 1, 0x01)`. -/
theorem C17_clear_then_digitBlink_witness :
    (sampleOpcodes.BLINK_DIG_CTL + 1 < 256 ∧ 16 ≤ 24 ∧ 24 ≤ 31) ∧
    (∃ s1 : Driver, clear sampleOpcodes ⟨[], true, 0x81, 0x10⟩ = some s1 ∧
      (24 ≤ 23 → digitBlink sampleOpcodes s1 24 true =
        ⟨s1.Uart ++ [sampleOpcodes.BLINK_DIG_CTL, 1 <<< (24 &&& 0x07)], true, 0,
          1 <<< (24 &&& 0x07)⟩) ∧
      (24 ≤ 24 → digitBlink sampleOpcodes s1 24 true =
        ⟨s1.Uart ++ [sampleOpcodes.BLINK_DIG_CTL + 1, 1 <<< (24 &&& 0x07)], true,
          1 <<< (24 &&& 0x07), 0⟩)) ∧
    (runOps sampleOpcodes ⟨[], true, 0x81, 0x10⟩ [Op.clear, Op.digitBlink 24 true]).map
        (fun t => (t.Uart.drop 38, t.BlinkCtlH, t.BlinkCtlL)) =
      some ([0xd1, 0x01], 0x01, 0) :=
  ⟨⟨by decide, by decide, by decide⟩,
   C17_clear_then_digitBlink sampleOpcodes ⟨[], true, 0x81, 0x10⟩ 24 (by decide)
     (by decide) (by decide),
   by decide⟩

/-! ## The byte stream -/

theorem step_frames (oc : Opcodes) (s : Driver) (op : Op) :
    ∃ (s1 : Driver) (cmds : List (Nat × Nat)),
      step oc s op = some s1 ∧ s1.Uart = s.Uart ++ bytesOf cmds := by
  cases op with
  | setDispLowDigOnRight => exact ⟨_, [], rfl, by simp [setDispLowDigOnRight, bytesOf]⟩
  | setDispLowDigOnLeft => exact ⟨_, [], rfl, by simp [setDispLowDigOnLeft, bytesOf]⟩
  | clear => exact ⟨_, _, clear_eq oc s, rfl⟩
  | sendCmd Cmd Data => exact ⟨_, [(Cmd % 256, Data % 256)], rfl, rfl⟩
  | displayDec Val Pos Width =>
    by_cases hp : Pos ≤ 31
    · exact ⟨_, _, displayDec_eq_all oc s Val Pos Width hp, rfl⟩
    · refine ⟨s, [], ?_, by simp [bytesOf]⟩
      show displayDec oc s Val Pos Width = some s
      unfold displayDec
      rw [if_pos (Or.inl (by omega))]
  | displayHex Val Pos Width =>
    by_cases hp : Pos ≤ 31
    · exact ⟨_, _, displayHex_eq oc s Val Pos Width hp, rfl⟩
    · refine ⟨s, [], ?_, by simp [bytesOf]⟩
      show displayHex oc s Val Pos Width = some s
      unfold displayHex
      rw [if_pos (by omega)]
  | digitBlink Digit OnOff =>
    refine ⟨_, ?_, rfl, ?_⟩
    · exact if 31 < Digit then []
        else if Digit < 16 then
          [(((if OnOff then oc.BLINK_WT_SET else oc.BLINK_WT_CLR) ||| Digit) % 256, 0xff)]
        else if 24 ≤ Digit then
          [((oc.BLINK_DIG_CTL + 1) % 256, blinkMask s.BlinkCtlH Digit OnOff)]
        else [(oc.BLINK_DIG_CTL % 256, blinkMask s.BlinkCtlL Digit OnOff)]
    · by_cases h31 : 31 < Digit
      · rw [if_pos h31]
        unfold digitBlink
        rw [if_pos h31]
        simp [bytesOf]
      · rw [if_neg h31]
        by_cases h16 : Digit < 16
        · rw [if_pos h16, digitBlink_eq_low oc s Digit OnOff h16]
          rfl
        · rw [if_neg h16]
          by_cases h24 : 24 ≤ Digit
          · rw [if_pos h24, digitBlink_eq_H oc s Digit OnOff h24 (by omega)]
            rfl
          · rw [if_neg h24, digitBlink_eq_L oc s Digit OnOff (by omega) (by omega)]
            rfl

theorem runOps_frames (oc : Opcodes) (ops : List Op) :
    ∀ s : Driver, ∃ (s1 : Driver) (cmds : List (Nat × Nat)),
      runOps oc s ops = some s1 ∧ s1.Uart = s.Uart ++ bytesOf cmds := by
  induction ops with
  | nil => intro s; exact ⟨s, [], rfl, by simp [bytesOf]⟩
  | cons op ops ih =>
    intro s
    obtain ⟨s1, c1, h1, e1⟩ := step_frames oc s op
    obtain ⟨s2, c2, h2, e2⟩ := ih s1
    refine ⟨s2, c1 ++ c2, ?_, ?_⟩
    · simp only [runOps, h1, h2]
    · rw [e2, e1, bytesOf_append, List.append_assoc]

/-- C18: `sendCmd(Cmd, Data)` appends the two bytes `Cmd`, `Data`, in this order,
to what was written before and changes nothing else in the driver.  Every
sequence of driver operations therefore completes and extends the byte stream by
the bytes of a list of (command, data) frames, an even number of bytes. -/
theorem C18_sendCmd_two_bytes (oc : Opcodes) (s : Driver) (Cmd Data : Nat)
    (hc : Cmd < 256) (hd : Data < 256) :
    sendCmd s Cmd Data = ⟨s.Uart ++ [Cmd, Data], s.LowDigOnRight, s.BlinkCtlH, s.BlinkCtlL⟩ ∧
    ∀ (ops : List Op) (t : Driver), ∃ (t1 : Driver) (cmds : List (Nat × Nat)),
      runOps oc t ops = some t1 ∧ t1.Uart = t.Uart ++ bytesOf cmds ∧
      t1.Uart.length = t.Uart.length + 2 * cmds.length := by
  constructor
  · simp [sendCmd, Nat.mod_eq_of_lt hc, Nat.mod_eq_of_lt hd]
  · intro ops t
    obtain ⟨t1, cmds, h, e⟩ := runOps_frames oc ops t
    exact ⟨t1, cmds, h, e, by rw [e, List.length_append, bytesOf_length]⟩

/-- C18 (witness): a sequence that uses every operation writes 56 bytes. -/
theorem C18_sendCmd_two_bytes_witness :
    ((0xf3 : Nat) < 256 ∧ (0x05 : Nat) < 256) ∧
    (sendCmd initial 0xf3 0x05 = ⟨[] ++ [0xf3, 0x05], true, 0, 0⟩ ∧
      ∀ (ops : List Op) (t : Driver), ∃ (t1 : Driver) (cmds : List (Nat × Nat)),
        runOps sampleOpcodes t ops = some t1 ∧ t1.Uart = t.Uart ++ bytesOf cmds ∧
        t1.Uart.length = t.Uart.length + 2 * cmds.length) ∧
    (runOps sampleOpcodes initial
        [Op.clear, Op.sendCmd 0xf3 0x05, Op.displayDec 1234 0 4, Op.setDispLowDigOnLeft,
          Op.displayHex 0xAB 7 2, Op.digitBlink 3 true, Op.digitBlink 20 true,
          Op.digitBlink 40 true, Op.setDispLowDigOnRight]).map (fun t => t.Uart.length) =
      some 56 :=
  ⟨⟨by decide, by decide⟩,
   C18_sendCmd_two_bytes sampleOpcodes initial 0xf3 0x05 (by decide) (by decide),
   by decide⟩

/-- C19: `setDispLowDigOnRight` and `setDispLowDigOnLeft` write nothing and keep
both blink masks; they set the orientation flag to true and to false, whatever it
was, so each is idempotent and the last call wins. -/
theorem C19_set_orientation (s : Driver) :
    setDispLowDigOnRight s = ⟨s.Uart, true, s.BlinkCtlH, s.BlinkCtlL⟩ ∧
    setDispLowDigOnLeft s = ⟨s.Uart, false, s.BlinkCtlH, s.BlinkCtlL⟩ ∧
    setDispLowDigOnRight (setDispLowDigOnRight s) = setDispLowDigOnRight s ∧
    setDispLowDigOnLeft (setDispLowDigOnLeft s) = setDispLowDigOnLeft s ∧
    setDispLowDigOnRight (setDispLowDigOnLeft s) = setDispLowDigOnRight s ∧
    setDispLowDigOnLeft (setDispLowDigOnRight s) = setDispLowDigOnLeft s :=
  ⟨rfl, rfl, rfl, rfl, rfl, rfl⟩

/-! ## Reading the digits back -/

theorem or_80_and_0f : ∀ x < 10, (x ||| 0x80) &&& 0x0F = x := by
  decide

theorem decData_and_0f (Val Width k : Nat) :
    decData Val Width k &&& 0x0F = Val / 10 ^ k % 10 := by
  have h : Val / 10 ^ k % 10 < 10 := Nat.mod_lt _ (by norm_num)
  unfold decData
  split
  · rw [and_0f]; omega
  · exact or_80_and_0f _ h

theorem readBack_range_map (g : Nat → Nat) (m : Nat) :
    readBack ((List.range m).map g) =
      ((List.range m).map (fun k => (g k &&& 0x0F) * 10 ^ k)).sum := by
  unfold readBack
  simp only [List.length_map, List.length_range]
  congr 1
  apply List.map_congr_left
  intro k hk
  rw [List.mem_range] at hk
  simp [List.getD_eq_getElem?_getD, hk]

theorem digits_sum (Val m : Nat) :
    ((List.range m).map (fun k => (Val / 10 ^ k % 10) * 10 ^ k)).sum = Val % 10 ^ m := by
  induction m with
  | zero => simp [Nat.mod_one]
  | succ m ih =>
    rw [List.range_succ, List.map_append, List.sum_append, ih, Nat.mod_pow_succ]
    simp [Nat.mul_comm]

/-- C20: for a position in 0..31 and a non-zero width, in either orientation,
the `m` data bytes `d_0, ..., d_(m-1)` that `displayDec` sends satisfy
`sum of (d_k & 0x0F) * 10^k = Val mod 10^m`; when `Val < 10^m`, that is when `m` is
at least the number of decimal digits of `Val`, the sum is `Val` itself. -/
theorem C20_displayDec_reads_back (oc : Opcodes) (s : Driver) (Val Pos Width : Nat)
    (hp : Pos ≤ 31) (hn : Width &&& 0x7f ≥ 1) :
    ∃ cmds : List (Nat × Nat),
      displayDec oc s Val Pos Width = some (emit s cmds) ∧
      readBack (cmds.map Prod.snd) = Val % 10 ^ cmds.length ∧
      (Val < 10 ^ cmds.length → readBack (cmds.map Prod.snd) = Val) := by
  refine ⟨_, displayDec_eq oc s Val Pos Width hp (by omega), ?_, ?_⟩
  · rw [List.map_map, readBack_range_map, range_map_length]
    simp only [Function.comp, decData_and_0f]
    exact digits_sum Val _
  · intro hlt
    rw [List.map_map, readBack_range_map]
    rw [range_map_length] at hlt
    simp only [Function.comp, decData_and_0f]
    rw [digits_sum, Nat.mod_eq_of_lt hlt]

/-- C20 (witness): 1234 shown in six digits without leading zeros reads back as
1234; shown in two digits it reads back as 34. -/
theorem C20_displayDec_reads_back_witness :
    (0 ≤ 31 ∧ 6 &&& 0x7f ≥ 1) ∧
    (∃ cmds : List (Nat × Nat),
      displayDec sampleOpcodes initial 1234 0 6 = some (emit initial cmds) ∧
      readBack (cmds.map Prod.snd) = 1234 % 10 ^ cmds.length ∧
      (1234 < 10 ^ cmds.length → readBack (cmds.map Prod.snd) = 1234)) ∧
    displayDec sampleOpcodes initial 1234 0 6 =
      some (emit initial
        [(0x80, 4), (0x81, 3), (0x82, 2), (0x83, 0x81), (0x84, 0x80), (0x85, 0x80)]) ∧
    readBack [4, 3, 2, 0x81, 0x80, 0x80] = 1234 ∧
    displayDec sampleOpcodes initial 1234 0 2 = some (emit initial [(0x80, 4), (0x81, 3)]) ∧
    readBack [4, 3] = 34 :=
  ⟨⟨by decide, by decide⟩,
   C20_displayDec_reads_back sampleOpcodes initial 1234 0 6 (by decide) (by decide),
   by decide, by decide, by decide, by decide⟩

end BcLedDisp
